import Mathlib

/-!
Verification of the slug deriver and sheet reconciler of the aibootcamp
backend (src/backend/index.py, status mode, and src/backend/generate_slugs.py,
URL mode).

Modelling conventions:
* a Python string is a `List Char` (`Str` below);
* `str.lower()` is modelled per character by `Char.toLower`, the ASCII
  case mapping (the only characters the slug pipeline can keep are ASCII,
  every non-ASCII character is removed by the `[^a-z0-9-]` filter);
* the whitespace class of Python regex `\s` and of `str.strip()` is
  modelled by its ASCII part (space, tab, newline, vertical tab, form
  feed, carriage return);
* `re.sub` with a pattern of the form `X+` is modelled by `subRuns`,
  which replaces every maximal run of matching characters by one
  replacement character.
-/

abbrev Str := List Char

/-- ASCII part of the Python regex class `\s` (also used by `str.strip()`). -/
def isPySpace (c : Char) : Bool :=
  c = ' ' || c = '\t' || c = '\n' || c = '\x0b' || c = '\x0c' || c = '\r'

/-- Characters kept by the filter `re.sub(r'[^a-z0-9\-]', '', slug)`:
lowercase ASCII letters, digits and the hyphen. -/
def isKeep (c : Char) : Bool :=
  (decide (97 ≤ c.toNat) && decide (c.toNat ≤ 122)) ||
  (decide (48 ≤ c.toNat) && decide (c.toNat ≤ 57)) ||
  c = '-'

/-- Lowercase ASCII letters and digits (the characters that make a slug
non-empty). -/
def isAlnumLower (c : Char) : Bool :=
  (decide (97 ≤ c.toNat) && decide (c.toNat ≤ 122)) ||
  (decide (48 ≤ c.toNat) && decide (c.toNat ≤ 57))

/-- Characters matched by the regex class `[\s.]`. -/
def isSpacePeriod (c : Char) : Bool :=
  isPySpace c || c = '.'

/-- The hyphen character, as a predicate. -/
def isHyphen (c : Char) : Bool :=
  c = '-'

/-- Helper of `subRuns`: `inRun` records whether the previous character was
part of a run of matching characters. -/
def subRunsAux (p : Char → Bool) (r : Char) : Bool → Str → Str
  | _, [] => []
  | inRun, c :: cs =>
    if p c then
      if inRun then subRunsAux p r true cs else r :: subRunsAux p r true cs
    else
      c :: subRunsAux p r false cs

/-- Model of `re.sub` with a pattern `X+`: every maximal run of characters
matched by `p` is replaced by the single character `r`. -/
def subRuns (p : Char → Bool) (r : Char) (l : Str) : Str :=
  subRunsAux p r false l

/-- Remove the longest suffix of characters matched by `p` (model of the
right half of Python `strip`, and of `rstrip`). -/
def stripEnd (p : Char → Bool) : Str → Str
  | [] => []
  | c :: cs =>
    let r := stripEnd p cs
    if r.isEmpty then (if p c then [] else [c]) else c :: r

/-- Model of Python `strip` with character class `p`: remove the longest
matching run at each end. -/
def stripBoth (p : Char → Bool) (l : Str) : Str :=
  stripEnd p (l.dropWhile p)

/-- Model of Python `str.strip()` (no arguments: whitespace). -/
def pyStrip (l : Str) : Str :=
  stripBoth isPySpace l

/-- Model of `SlugGenerator.generate_slug` from src/backend/index.py
(the period-aware variant):
empty guard, lowercase + strip, collapse whitespace runs to one space,
replace runs of whitespace/periods by one hyphen, drop every character
that is not `[a-z0-9-]`, collapse hyphen runs, strip hyphens. -/
def generate_slug_index (name : Str) : Str :=
  if name = [] then []
  else
    let s1 := pyStrip (name.map Char.toLower)
    let s2 := subRuns isPySpace ' ' s1
    let s3 := subRuns isSpacePeriod '-' s2
    let s4 := s3.filter isKeep
    let s5 := subRuns isHyphen '-' s4
    stripBoth isHyphen s5

/-- Model of `SlugGenerator.generate_slug` from src/backend/generate_slugs.py
(the simpler variant): lowercase + strip, replace each single space by a
hyphen, drop every character that is not `[a-z0-9-]`, collapse hyphen
runs, strip hyphens. -/
def generate_slug_gs (name : Str) : Str :=
  let s1 := pyStrip (name.map Char.toLower)
  let s2 := s1.map (fun c => if c = ' ' then '-' else c)
  let s3 := s2.filter isKeep
  let s4 := subRuns isHyphen '-' s3
  stripBoth isHyphen s4

/-- Modelled from the spec: the canonical period-aware slug algorithm of
section 4.1, steps 1 to 7 in the stated order (empty guard; trim then
lowercase; collapse whitespace runs into a single space; replace every
run of whitespace/periods with a single hyphen; strip every character
that is not a lowercase ASCII letter, digit, or hyphen; collapse hyphen
runs; trim hyphens). -/
def specSlug (name : Str) : Str :=
  if name = [] then []
  else
    let s1 := (pyStrip name).map Char.toLower
    let s2 := subRuns isPySpace ' ' s1
    let s3 := subRuns isSpacePeriod '-' s2
    let s4 := s3.filter isKeep
    let s5 := subRuns isHyphen '-' s4
    stripBoth isHyphen s5

/-- No two consecutive hyphens in the list. -/
def noDoubleHyphen : Str → Bool
  | c1 :: c2 :: rest => !(c1 = '-' && c2 = '-') && noDoubleHyphen (c2 :: rest)
  | _ => true

/-- The slug well-formedness invariant of the spec (section 3): only
lowercase ASCII letters, digits and hyphens; no leading, trailing or
doubled hyphen. -/
def slugOk (l : Str) : Bool :=
  l.all isKeep && !(l.head? = some '-') && !(l.getLast? = some '-') &&
  noDoubleHyphen l

/-- True when the string has no lowercase-alphanumeric character after
per-character ASCII lowercasing. -/
def noAlnum (s : Str) : Bool :=
  s.all (fun c => !isAlnumLower c.toLower)

theorem toNat_ofNat_lt {n : Nat} (h : n < 55296) : (Char.ofNat n).toNat = n := by
  rw [Char.ofNat, dif_pos (Or.inl h)]
  rfl

theorem char_eq_iff_toNat {c d : Char} : c = d ↔ c.toNat = d.toNat := by
  constructor
  · rintro rfl; rfl
  · intro h
    apply Char.ext
    exact UInt32.toNat.inj h

theorem isPySpace_iff {c : Char} : isPySpace c = true ↔
    c.toNat = 32 ∨ c.toNat = 9 ∨ c.toNat = 10 ∨ c.toNat = 11 ∨ c.toNat = 12 ∨ c.toNat = 13 := by
  simp only [isPySpace, char_eq_iff_toNat, Bool.or_eq_true, decide_eq_true_eq,
    show (' ' : Char).toNat = 32 from rfl, show ('\t' : Char).toNat = 9 from rfl,
    show ('\n' : Char).toNat = 10 from rfl, show ('\x0b' : Char).toNat = 11 from rfl,
    show ('\x0c' : Char).toNat = 12 from rfl, show ('\r' : Char).toNat = 13 from rfl]
  omega

theorem isKeep_iff {c : Char} : isKeep c = true ↔
    (97 ≤ c.toNat ∧ c.toNat ≤ 122) ∨ (48 ≤ c.toNat ∧ c.toNat ≤ 57) ∨ c.toNat = 45 := by
  simp only [isKeep, char_eq_iff_toNat, Bool.or_eq_true, Bool.and_eq_true, decide_eq_true_eq,
    show ('-' : Char).toNat = 45 from rfl]
  omega

theorem isAlnumLower_iff {c : Char} : isAlnumLower c = true ↔
    (97 ≤ c.toNat ∧ c.toNat ≤ 122) ∨ (48 ≤ c.toNat ∧ c.toNat ≤ 57) := by
  simp [isAlnumLower]

theorem toLower_eq_self_of_isKeep {c : Char} (h : isKeep c = true) : c.toLower = c := by
  rw [isKeep_iff] at h
  rw [Char.toLower, if_neg]
  omega

theorem toNat_toLower (c : Char) :
    c.toLower.toNat = if 65 ≤ c.toNat ∧ c.toNat ≤ 90 then c.toNat + 32 else c.toNat := by
  rw [Char.toLower]
  by_cases h : 65 ≤ c.toNat ∧ c.toNat ≤ 90
  · rw [if_pos ⟨h.1, h.2⟩, if_pos h, toNat_ofNat_lt (by omega)]
  · rw [if_neg (by omega), if_neg h]

theorem isPySpace_toLower (c : Char) : isPySpace c.toLower = isPySpace c := by
  rw [Bool.eq_iff_iff, isPySpace_iff, isPySpace_iff, toNat_toLower]
  by_cases h65 : 65 ≤ c.toNat ∧ c.toNat ≤ 90
  · rw [if_pos h65]
    omega
  · rw [if_neg h65]

theorem mem_subRunsAux {p : Char → Bool} {r c : Char} :
    ∀ {l : Str} {b : Bool}, c ∈ subRunsAux p r b l → c = r ∨ c ∈ l := by
  intro l
  induction l with
  | nil => intro b h; simp [subRunsAux] at h
  | cons d ds ih =>
    intro b h
    rw [subRunsAux] at h
    by_cases hd : p d
    · rw [if_pos hd] at h
      by_cases hb : b
      · subst hb
        rw [if_pos rfl] at h
        rcases ih h with h1 | h1
        · exact Or.inl h1
        · exact Or.inr (List.mem_cons_of_mem _ h1)
      · simp only [hb, if_false] at h
        rcases List.mem_cons.mp h with h1 | h1
        · exact Or.inl h1
        · rcases ih h1 with h2 | h2
          · exact Or.inl h2
          · exact Or.inr (List.mem_cons_of_mem _ h2)
    · rw [if_neg hd] at h
      rcases List.mem_cons.mp h with h1 | h1
      · exact Or.inr (h1 ▸ List.mem_cons_self _ _)
      · rcases ih h1 with h2 | h2
        · exact Or.inl h2
        · exact Or.inr (List.mem_cons_of_mem _ h2)

theorem mem_subRunsAux_of_mem {p : Char → Bool} {r c : Char} (hc : p c = false) :
    ∀ {l : Str} {b : Bool}, c ∈ l → c ∈ subRunsAux p r b l := by
  intro l
  induction l with
  | nil => intro b h; simp at h
  | cons d ds ih =>
    intro b h
    rw [subRunsAux]
    rcases List.mem_cons.mp h with h1 | h1
    · subst h1
      rw [if_neg (by rw [hc]; simp)]
      exact List.mem_cons_self _ _
    · by_cases hd : p d
      · rw [if_pos hd]
        by_cases hb : b
        · subst hb; rw [if_pos rfl]; exact ih h1
        · simp only [hb, if_false]
          exact List.mem_cons_of_mem _ (ih h1)
      · rw [if_neg hd]
        exact List.mem_cons_of_mem _ (ih h1)

theorem subRunsAux_eq_self {p : Char → Bool} {r : Char} :
    ∀ {l : Str}, (∀ c ∈ l, p c = false) → ∀ b, subRunsAux p r b l = l := by
  intro l
  induction l with
  | nil => intro _ b; rfl
  | cons d ds ih =>
    intro h b
    rw [subRunsAux, if_neg (by rw [h d (List.mem_cons_self _ _)]; simp)]
    rw [ih (fun c hc => h c (List.mem_cons_of_mem _ hc)) false]

theorem mem_dropWhile_of_mem {p : Char → Bool} {c : Char} (hc : p c = false) :
    ∀ {l : Str}, c ∈ l → c ∈ l.dropWhile p := by
  intro l
  induction l with
  | nil => intro h; simp at h
  | cons d ds ih =>
    intro h
    rw [List.dropWhile]
    by_cases hd : p d
    · rw [hd]
      rcases List.mem_cons.mp h with h1 | h1
      · subst h1; rw [hd] at hc; simp at hc
      · exact ih h1
    · simp only [Bool.not_eq_true] at hd
      rw [hd]
      exact h

theorem mem_of_mem_dropWhile {p : Char → Bool} {c : Char} :
    ∀ {l : Str}, c ∈ l.dropWhile p → c ∈ l := by
  intro l
  induction l with
  | nil => intro h; simp [List.dropWhile] at h
  | cons d ds ih =>
    intro h
    rw [List.dropWhile] at h
    by_cases hd : p d
    · rw [hd] at h
      exact List.mem_cons_of_mem _ (ih h)
    · simp only [Bool.not_eq_true] at hd
      rw [hd] at h
      exact h

theorem dropWhile_eq_self_of_head {p : Char → Bool} {l : Str}
    (h : ∀ c, l.head? = some c → p c = false) : l.dropWhile p = l := by
  cases l with
  | nil => rfl
  | cons d ds =>
    rw [List.dropWhile, h d rfl]

theorem head?_dropWhile {p : Char → Bool} {c : Char} :
    ∀ {l : Str}, (l.dropWhile p).head? = some c → p c = false := by
  intro l
  induction l with
  | nil => intro h; simp [List.dropWhile] at h
  | cons d ds ih =>
    intro h
    rw [List.dropWhile] at h
    by_cases hd : p d
    · rw [hd] at h
      exact ih h
    · simp only [Bool.not_eq_true] at hd
      rw [hd] at h
      simp only [List.head?_cons, Option.some.injEq] at h
      rw [← h]
      exact hd

theorem mem_stripEnd {p : Char → Bool} {c : Char} :
    ∀ {l : Str}, c ∈ stripEnd p l → c ∈ l := by
  intro l
  induction l with
  | nil => intro h; simp [stripEnd] at h
  | cons d ds ih =>
    intro h
    rw [stripEnd] at h
    by_cases he : (stripEnd p ds).isEmpty
    · simp only [he, if_true] at h
      by_cases hd : p d
      · rw [if_pos hd] at h; simp at h
      · rw [if_neg hd] at h
        rcases List.mem_cons.mp h with h1 | h1
        · exact h1 ▸ List.mem_cons_self _ _
        · simp at h1
    · simp only [he, if_false] at h
      rcases List.mem_cons.mp h with h1 | h1
      · exact h1 ▸ List.mem_cons_self _ _
      · exact List.mem_cons_of_mem _ (ih h1)

theorem mem_stripEnd_of_mem {p : Char → Bool} {c : Char} (hc : p c = false) :
    ∀ {l : Str}, c ∈ l → c ∈ stripEnd p l := by
  intro l
  induction l with
  | nil => intro h; simp at h
  | cons d ds ih =>
    intro h
    rw [stripEnd]
    rcases List.mem_cons.mp h with h1 | h1
    · subst h1
      by_cases he : (stripEnd p ds).isEmpty
      · simp only [he, if_true]
        rw [if_neg (by rw [hc]; simp)]
        exact List.mem_cons_self _ _
      · simp only [he, if_false]
        exact List.mem_cons_self _ _
    · have h2 := ih h1
      have he : (stripEnd p ds).isEmpty = false := by
        cases hl : stripEnd p ds with
        | nil => rw [hl] at h2; simp at h2
        | cons x xs => simp [List.isEmpty]
      simp only [he, if_false]
      exact List.mem_cons_of_mem _ h2

theorem stripEnd_eq_self {p : Char → Bool} :
    ∀ {l : Str}, (∀ c, l.getLast? = some c → p c = false) → stripEnd p l = l := by
  intro l
  induction l with
  | nil => intro _; rfl
  | cons d ds ih =>
    intro h
    rw [stripEnd]
    cases hds : ds with
    | nil =>
      simp only [stripEnd, List.isEmpty, if_true]
      rw [if_neg]
      subst hds
      rw [h d rfl]
      simp
    | cons x xs =>
      have hlast : ∀ c, ds.getLast? = some c → p c = false := by
        intro c hc
        apply h
        rw [hds] at hc ⊢
        rw [List.getLast?_cons_cons]
        exact hc
      rw [← hds, ih hlast]
      have hne : ds.isEmpty = false := by rw [hds]; simp [List.isEmpty]
      simp [hne]

theorem head?_stripEnd {p : Char → Bool} :
    ∀ {l : Str}, stripEnd p l ≠ [] → (stripEnd p l).head? = l.head? := by
  intro l
  cases l with
  | nil => intro h; simp [stripEnd] at h
  | cons d ds =>
    intro h
    rw [stripEnd] at h ⊢
    by_cases he : (stripEnd p ds).isEmpty
    · simp only [he, if_true] at h ⊢
      by_cases hd : p d
      · rw [if_pos hd] at h; simp at h
      · rw [if_neg hd]; rfl
    · simp only [he, if_false]
      rfl

theorem getLast?_stripEnd {p : Char → Bool} {c : Char} :
    ∀ {l : Str}, (stripEnd p l).getLast? = some c → p c = false := by
  intro l
  induction l with
  | nil => intro h; simp [stripEnd] at h
  | cons d ds ih =>
    intro h
    rw [stripEnd] at h
    by_cases he : (stripEnd p ds).isEmpty
    · simp only [he, if_true] at h
      by_cases hd : p d
      · rw [if_pos hd] at h; simp at h
      · rw [if_neg hd] at h
        simp only [List.getLast?_singleton, Option.some.injEq] at h
        rw [← h]
        simp only [Bool.not_eq_true] at hd
        exact hd
    · cases hl : stripEnd p ds with
      | nil => rw [hl] at he; simp [List.isEmpty] at he
      | cons x xs =>
        rw [hl] at h
        simp only [List.isEmpty, if_false, ite_false, Bool.false_eq_true] at h
        rw [List.getLast?_cons_cons] at h
        exact ih (hl ▸ h)

theorem noDoubleHyphen_tail {c : Char} {l : Str} (h : noDoubleHyphen (c :: l) = true) :
    noDoubleHyphen l = true := by
  cases l with
  | nil => rfl
  | cons d ds =>
    rw [noDoubleHyphen] at h
    exact (Bool.and_eq_true .. ▸ h).2

theorem noDoubleHyphen_cons_head {c : Char} {l : Str} (h : noDoubleHyphen (c :: l) = true)
    (hc : c = '-') : l.head? ≠ some '-' := by
  cases l with
  | nil => simp
  | cons d ds =>
    rw [noDoubleHyphen] at h
    have h1 := (Bool.and_eq_true .. ▸ h).1
    simp only [List.head?_cons, ne_eq, Option.some.injEq]
    intro hd
    rw [hc, hd] at h1
    simp at h1

theorem noDoubleHyphen_cons_of {c : Char} {l : Str}
    (h1 : c = '-' → l.head? ≠ some '-') (h2 : noDoubleHyphen l = true) :
    noDoubleHyphen (c :: l) = true := by
  cases l with
  | nil => rfl
  | cons d ds =>
    rw [noDoubleHyphen, Bool.and_eq_true]
    refine ⟨?_, h2⟩
    by_cases hc : c = '-'
    · have := h1 hc
      simp only [List.head?_cons, ne_eq, Option.some.injEq] at this
      simp [this]
    · simp [hc]

theorem noDoubleHyphen_dropWhile {p : Char → Bool} :
    ∀ {l : Str}, noDoubleHyphen l = true → noDoubleHyphen (l.dropWhile p) = true := by
  intro l
  induction l with
  | nil => intro _; rfl
  | cons d ds ih =>
    intro h
    rw [List.dropWhile]
    by_cases hd : p d
    · rw [hd]
      exact ih (noDoubleHyphen_tail h)
    · simp only [Bool.not_eq_true] at hd
      rw [hd]
      exact h

theorem head?_stripEnd_of_ne {p : Char → Bool} {l : Str} :
    ∀ {c : Char}, (stripEnd p l).head? = some c → l.head? = some c := by
  intro c h
  have hne : stripEnd p l ≠ [] := by
    intro he
    rw [he] at h
    simp at h
  rw [head?_stripEnd hne] at h
  exact h

theorem noDoubleHyphen_stripEnd {p : Char → Bool} :
    ∀ {l : Str}, noDoubleHyphen l = true → noDoubleHyphen (stripEnd p l) = true := by
  intro l
  induction l with
  | nil => intro _; rfl
  | cons d ds ih =>
    intro h
    rw [stripEnd]
    by_cases he : (stripEnd p ds).isEmpty
    · simp only [he, if_true]
      by_cases hd : p d
      · rw [if_pos hd]; rfl
      · rw [if_neg hd]; rfl
    · simp only [he, if_false]
      apply noDoubleHyphen_cons_of
      · intro hd hh
        apply noDoubleHyphen_cons_head h hd
        have := head?_stripEnd_of_ne hh
        exact this
      · exact ih (noDoubleHyphen_tail h)

theorem subRuns_hyphen_good :
    ∀ l : Str, (subRunsAux isHyphen '-' true l).head? ≠ some '-' ∧
      noDoubleHyphen (subRunsAux isHyphen '-' true l) = true ∧
      noDoubleHyphen (subRunsAux isHyphen '-' false l) = true := by
  intro l
  induction l with
  | nil => exact ⟨by simp [subRunsAux], rfl, rfl⟩
  | cons d ds ih =>
    obtain ⟨ih1, ih2, ih3⟩ := ih
    by_cases hd : isHyphen d
    · refine ⟨?_, ?_, ?_⟩
      · rw [subRunsAux, if_pos hd, if_pos rfl]
        exact ih1
      · rw [subRunsAux, if_pos hd, if_pos rfl]
        exact ih2
      · rw [subRunsAux, if_pos hd]
        simp only [Bool.false_eq_true, if_false]
        exact noDoubleHyphen_cons_of (fun _ => ih1) ih2
    · have hd' : d ≠ '-' := by
        intro hh
        rw [hh] at hd
        exact hd rfl
      refine ⟨?_, ?_, ?_⟩
      · rw [subRunsAux, if_neg hd]
        simp [hd']
      · rw [subRunsAux, if_neg hd]
        exact noDoubleHyphen_cons_of (fun hh => absurd hh hd') ih3
      · rw [subRunsAux, if_neg hd]
        exact noDoubleHyphen_cons_of (fun hh => absurd hh hd') ih3

theorem subRuns_hyphen_id :
    ∀ l : Str, noDoubleHyphen l = true →
      (subRunsAux isHyphen '-' false l = l ∧
        (l.head? ≠ some '-' → subRunsAux isHyphen '-' true l = l)) := by
  intro l
  induction l with
  | nil => exact fun _ => ⟨rfl, fun _ => rfl⟩
  | cons d ds ih =>
    intro h
    obtain ⟨ih1, ih2⟩ := ih (noDoubleHyphen_tail h)
    by_cases hd : isHyphen d
    · have hd' : d = '-' := by
        rw [isHyphen] at hd
        exact of_decide_eq_true hd
      constructor
      · rw [subRunsAux, if_pos hd]
        simp only [Bool.false_eq_true, if_false]
        rw [hd', ih2 (noDoubleHyphen_cons_head h hd')]
      · intro hh
        exact absurd (by rw [hd']; rfl) hh
    · have hd' : d ≠ '-' := by
        intro hh
        rw [hh] at hd
        exact hd rfl
      constructor
      · rw [subRunsAux, if_neg hd, ih1]
      · intro _
        rw [subRunsAux, if_neg hd, ih1]

theorem isPySpace_of_isKeep {c : Char} (h : isKeep c = true) : isPySpace c = false := by
  rw [isKeep_iff] at h
  rw [Bool.eq_false_iff]
  intro hs
  rw [isPySpace_iff] at hs
  omega

theorem isSpacePeriod_of_isKeep {c : Char} (h : isKeep c = true) : isSpacePeriod c = false := by
  rw [isSpacePeriod, Bool.or_eq_false_iff]
  refine ⟨isPySpace_of_isKeep h, ?_⟩
  rw [isKeep_iff] at h
  rw [decide_eq_false_iff_not]
  intro hc
  rw [char_eq_iff_toNat] at hc
  have : ('.' : Char).toNat = 46 := rfl
  omega

theorem isKeep_of_isAlnumLower {c : Char} (h : isAlnumLower c = true) : isKeep c = true := by
  rw [isAlnumLower_iff] at h
  rw [isKeep_iff]
  omega

theorem isHyphen_of_isAlnumLower {c : Char} (h : isAlnumLower c = true) : isHyphen c = false := by
  rw [isAlnumLower_iff] at h
  rw [isHyphen, decide_eq_false_iff_not]
  intro hc
  rw [char_eq_iff_toNat] at hc
  have : ('-' : Char).toNat = 45 := rfl
  omega

theorem isPySpace_of_isAlnumLower {c : Char} (h : isAlnumLower c = true) : isPySpace c = false :=
  isPySpace_of_isKeep (isKeep_of_isAlnumLower h)

theorem isSpacePeriod_of_isAlnumLower {c : Char} (h : isAlnumLower c = true) :
    isSpacePeriod c = false :=
  isSpacePeriod_of_isKeep (isKeep_of_isAlnumLower h)

theorem slugOk_of_parts {l : Str} (h1 : ∀ c ∈ l, isKeep c = true)
    (h2 : l.head? ≠ some '-') (h3 : l.getLast? ≠ some '-')
    (h4 : noDoubleHyphen l = true) : slugOk l = true := by
  rw [slugOk]
  simp only [Bool.and_eq_true, List.all_eq_true, Bool.not_eq_true']
  refine ⟨⟨⟨fun c hc => h1 c hc, ?_⟩, ?_⟩, h4⟩
  · rw [decide_eq_false_iff_not]; exact h2
  · rw [decide_eq_false_iff_not]; exact h3

theorem slug_tail_ok (t : Str) :
    slugOk (stripBoth isHyphen (subRuns isHyphen '-' (t.filter isKeep))) = true := by
  set u := t.filter isKeep with hu
  have hukeep : ∀ c ∈ u, isKeep c = true := by
    intro c hc
    exact List.of_mem_filter hc
  set v := subRuns isHyphen '-' u with hv
  have hvkeep : ∀ c ∈ v, isKeep c = true := by
    intro c hc
    rcases mem_subRunsAux hc with h | h
    · subst h; rw [isKeep_iff]; exact Or.inr (Or.inr rfl)
    · exact hukeep c h
  have hvnd : noDoubleHyphen v = true := (subRuns_hyphen_good u).2.2
  set w := stripBoth isHyphen v with hw
  apply slugOk_of_parts
  · intro c hc
    exact hvkeep c (mem_of_mem_dropWhile (mem_stripEnd hc))
  · intro hh
    have h1 := head?_stripEnd_of_ne hh
    have := head?_dropWhile h1
    rw [isHyphen] at this
    simp at this
  · intro hh
    have := getLast?_stripEnd hh
    rw [isHyphen] at this
    simp at this
  · exact noDoubleHyphen_stripEnd (noDoubleHyphen_dropWhile hvnd)

theorem slug_tail_mem {t : Str} {c : Char} (hc : c ∈ t) (ha : isAlnumLower c = true) :
    c ∈ stripBoth isHyphen (subRuns isHyphen '-' (t.filter isKeep)) := by
  have h1 : c ∈ t.filter isKeep := List.mem_filter_of_mem hc (isKeep_of_isAlnumLower ha)
  have h2 : c ∈ subRuns isHyphen '-' (t.filter isKeep) :=
    mem_subRunsAux_of_mem (isHyphen_of_isAlnumLower ha) h1
  exact mem_stripEnd_of_mem (isHyphen_of_isAlnumLower ha)
    (mem_dropWhile_of_mem (isHyphen_of_isAlnumLower ha) h2)

theorem map_eq_self_of {f : Char → Char} {l : Str} (h : ∀ c ∈ l, f c = c) :
    l.map f = l := by
  induction l with
  | nil => rfl
  | cons d ds ih =>
    rw [List.map_cons, h d (List.mem_cons_self _ _), ih (fun c hc => h c (List.mem_cons_of_mem _ hc))]

theorem dropWhile_eq_self_of_all {p : Char → Bool} {l : Str} (h : ∀ c ∈ l, p c = false) :
    l.dropWhile p = l :=
  dropWhile_eq_self_of_head (fun c hc => h c (List.mem_of_mem_head? (hc ▸ rfl)))

theorem stripBoth_eq_self_of_all {p : Char → Bool} {l : Str} (h : ∀ c ∈ l, p c = false) :
    stripBoth p l = l := by
  rw [stripBoth, dropWhile_eq_self_of_all h]
  exact stripEnd_eq_self (fun c hc => h c (List.mem_of_getLast?_eq_some hc))

theorem mem_pyStrip_of_mem {c : Char} {l : Str} (hc : c ∈ l) (hp : isPySpace c = false) :
    c ∈ pyStrip l :=
  mem_stripEnd_of_mem hp (mem_dropWhile_of_mem hp hc)

theorem noAlnum_of_not_exists {s : Str} (h : ¬ ∃ c ∈ s, isAlnumLower c.toLower = true) :
    noAlnum s = true := by
  rw [noAlnum, List.all_eq_true]
  intro c hc
  simp only [Bool.not_eq_true']
  rw [Bool.eq_false_iff]
  intro ha
  exact h ⟨c, hc, ha⟩

theorem slugOk_generate_slug_index (name : Str) : slugOk (generate_slug_index name) = true := by
  rw [generate_slug_index]
  by_cases h : name = []
  · rw [if_pos h]; rfl
  · rw [if_neg h]
    exact slug_tail_ok _

theorem slugOk_generate_slug_gs (name : Str) : slugOk (generate_slug_gs name) = true :=
  slug_tail_ok _

theorem generate_slug_index_ne_nil {name : Str} {c : Char} (hc : c ∈ name)
    (ha : isAlnumLower c.toLower = true) : generate_slug_index name ≠ [] := by
  have hne : name ≠ [] := by
    intro h
    rw [h] at hc
    simp at hc
  rw [generate_slug_index, if_neg hne]
  intro hempty
  have h1 : c.toLower ∈ name.map Char.toLower := List.mem_map_of_mem _ hc
  have hsp : isPySpace c.toLower = false := isPySpace_of_isAlnumLower ha
  have h2 : c.toLower ∈ pyStrip (name.map Char.toLower) := mem_pyStrip_of_mem h1 hsp
  have h3 : c.toLower ∈ subRuns isPySpace ' ' (pyStrip (name.map Char.toLower)) :=
    mem_subRunsAux_of_mem hsp h2
  have h4 : c.toLower ∈ subRuns isSpacePeriod '-'
      (subRuns isPySpace ' ' (pyStrip (name.map Char.toLower))) :=
    mem_subRunsAux_of_mem (isSpacePeriod_of_isAlnumLower ha) h3
  have h5 := slug_tail_mem h4 ha
  rw [hempty] at h5
  simp at h5

theorem generate_slug_index_empty {name : Str} (h : generate_slug_index name = []) :
    noAlnum name = true := by
  apply noAlnum_of_not_exists
  rintro ⟨c, hc, ha⟩
  exact generate_slug_index_ne_nil hc ha h

theorem generate_slug_gs_ne_nil {name : Str} {c : Char} (hc : c ∈ name)
    (ha : isAlnumLower c.toLower = true) : generate_slug_gs name ≠ [] := by
  rw [generate_slug_gs]
  intro hempty
  have h1 : c.toLower ∈ name.map Char.toLower := List.mem_map_of_mem _ hc
  have hsp : isPySpace c.toLower = false := isPySpace_of_isAlnumLower ha
  have h2 : c.toLower ∈ pyStrip (name.map Char.toLower) := mem_pyStrip_of_mem h1 hsp
  have hnsp : c.toLower ≠ ' ' := by
    intro hh
    rw [isAlnumLower_iff] at ha
    rw [char_eq_iff_toNat] at hh
    have : (' ' : Char).toNat = 32 := rfl
    omega
  have h3 : c.toLower ∈ (pyStrip (name.map Char.toLower)).map
      (fun c => if c = ' ' then '-' else c) := by
    have := List.mem_map_of_mem (fun c => if c = ' ' then '-' else c) h2
    simp only [if_neg hnsp] at this
    exact this
  have h5 := slug_tail_mem h3 ha
  rw [hempty] at h5
  simp at h5

theorem generate_slug_gs_empty {name : Str} (h : generate_slug_gs name = []) :
    noAlnum name = true := by
  apply noAlnum_of_not_exists
  rintro ⟨c, hc, ha⟩
  exact generate_slug_gs_ne_nil hc ha h

theorem slugOk_parts {l : Str} (h : slugOk l = true) :
    (∀ c ∈ l, isKeep c = true) ∧ l.head? ≠ some '-' ∧ l.getLast? ≠ some '-' ∧
      noDoubleHyphen l = true := by
  rw [slugOk] at h
  simp only [Bool.and_eq_true, List.all_eq_true, Bool.not_eq_true'] at h
  obtain ⟨⟨⟨h1, h2⟩, h3⟩, h4⟩ := h
  refine ⟨fun c hc => h1 c hc, ?_, ?_, h4⟩
  · rw [decide_eq_false_iff_not] at h2; exact h2
  · rw [decide_eq_false_iff_not] at h3; exact h3

theorem stripBoth_hyphen_eq_self {l : Str} (hhead : l.head? ≠ some '-')
    (hlast : l.getLast? ≠ some '-') : stripBoth isHyphen l = l := by
  rw [stripBoth, dropWhile_eq_self_of_head]
  · apply stripEnd_eq_self
    intro c hc
    rw [isHyphen, decide_eq_false_iff_not]
    intro hh
    exact hlast (by rw [← hh]; exact hc)
  · intro c hc
    rw [isHyphen, decide_eq_false_iff_not]
    intro hh
    exact hhead (by rw [← hh]; exact hc)

theorem generate_slug_index_fixed {l : Str} (h : slugOk l = true) :
    generate_slug_index l = l := by
  obtain ⟨hkeep, hhead, hlast, hnd⟩ := slugOk_parts h
  rw [generate_slug_index]
  by_cases hl : l = []
  · rw [if_pos hl, hl]
  · rw [if_neg hl]
    show stripBoth isHyphen (subRuns isHyphen '-'
      ((subRuns isSpacePeriod '-' (subRuns isPySpace ' '
        (pyStrip (l.map Char.toLower)))).filter isKeep)) = l
    have e1 : l.map Char.toLower = l :=
      map_eq_self_of (fun c hc => toLower_eq_self_of_isKeep (hkeep c hc))
    rw [e1]
    have e2 : pyStrip l = l :=
      stripBoth_eq_self_of_all (fun c hc => isPySpace_of_isKeep (hkeep c hc))
    rw [e2]
    have e3 : subRuns isPySpace ' ' l = l :=
      subRunsAux_eq_self (fun c hc => isPySpace_of_isKeep (hkeep c hc)) false
    rw [e3]
    have e4 : subRuns isSpacePeriod '-' l = l :=
      subRunsAux_eq_self (fun c hc => isSpacePeriod_of_isKeep (hkeep c hc)) false
    rw [e4]
    have e5 : l.filter isKeep = l := List.filter_eq_self.mpr hkeep
    rw [e5]
    have e6 : subRuns isHyphen '-' l = l := (subRuns_hyphen_id l hnd).1
    rw [e6]
    exact stripBoth_hyphen_eq_self hhead hlast

theorem generate_slug_gs_fixed {l : Str} (h : slugOk l = true) :
    generate_slug_gs l = l := by
  obtain ⟨hkeep, hhead, hlast, hnd⟩ := slugOk_parts h
  rw [generate_slug_gs]
  show stripBoth isHyphen (subRuns isHyphen '-'
    (((pyStrip (l.map Char.toLower)).map (fun c => if c = ' ' then '-' else c)).filter
      isKeep)) = l
  have e1 : l.map Char.toLower = l :=
    map_eq_self_of (fun c hc => toLower_eq_self_of_isKeep (hkeep c hc))
  rw [e1]
  have e2 : pyStrip l = l :=
    stripBoth_eq_self_of_all (fun c hc => isPySpace_of_isKeep (hkeep c hc))
  rw [e2]
  have e3 : l.map (fun c => if c = ' ' then '-' else c) = l := by
    apply map_eq_self_of
    intro c hc
    rw [if_neg]
    intro hh
    have := isPySpace_of_isKeep (hkeep c hc)
    rw [hh] at this
    simp [isPySpace] at this
  rw [e3]
  have e5 : l.filter isKeep = l := List.filter_eq_self.mpr hkeep
  rw [e5]
  have e6 : subRuns isHyphen '-' l = l := (subRuns_hyphen_id l hnd).1
  rw [e6]
  exact stripBoth_hyphen_eq_self hhead hlast

theorem dropWhile_map_comm {f : Char → Char} {p : Char → Bool}
    (hf : ∀ c, p (f c) = p c) : ∀ l : Str, (l.map f).dropWhile p = (l.dropWhile p).map f := by
  intro l
  induction l with
  | nil => rfl
  | cons d ds ih =>
    rw [List.map_cons, List.dropWhile, List.dropWhile, hf d]
    by_cases hd : p d
    · rw [hd]
      exact ih
    · simp only [Bool.not_eq_true] at hd
      rw [hd, List.map_cons]

theorem stripEnd_map_comm {f : Char → Char} {p : Char → Bool}
    (hf : ∀ c, p (f c) = p c) : ∀ l : Str, stripEnd p (l.map f) = (stripEnd p l).map f := by
  intro l
  induction l with
  | nil => rfl
  | cons d ds ih =>
    rw [List.map_cons, stripEnd, stripEnd, ih]
    by_cases he : (stripEnd p ds).isEmpty
    · have he2 : ((stripEnd p ds).map f).isEmpty = true := by
        cases hl : stripEnd p ds with
        | nil => rfl
        | cons x xs => rw [hl] at he; simp [List.isEmpty] at he
      simp only [he, he2, if_true, hf d]
      by_cases hd : p d
      · rw [if_pos hd, if_pos hd]
        rfl
      · rw [if_neg hd, if_neg hd]
        rfl
    · have he2 : ((stripEnd p ds).map f).isEmpty = false := by
        cases hl : stripEnd p ds with
        | nil => rw [hl] at he; simp [List.isEmpty] at he
        | cons x xs => rfl
      simp only [he, he2, if_false, Bool.false_eq_true, List.map_cons]

theorem pyStrip_map_toLower (l : Str) :
    pyStrip (l.map Char.toLower) = (pyStrip l).map Char.toLower := by
  rw [pyStrip, pyStrip, stripBoth, stripBoth, dropWhile_map_comm isPySpace_toLower,
    stripEnd_map_comm isPySpace_toLower]

theorem generate_slug_index_eq_specSlug (name : Str) :
    generate_slug_index name = specSlug name := by
  rw [generate_slug_index, specSlug]
  by_cases h : name = []
  · rw [if_pos h, if_pos h]
  · rw [if_neg h, if_neg h, pyStrip_map_toLower]

/-- Claim C1: for every input string, both generate_slug implementations
return a string that contains only lowercase ASCII letters, digits and
hyphens, never starts or ends with a hyphen, never contains two
consecutive hyphens, and is empty only if the input, after lowercasing,
contains no alphanumeric character. -/
theorem claim_C1_slug_invariant (name : Str) :
    slugOk (generate_slug_index name) = true ∧ slugOk (generate_slug_gs name) = true ∧
    (generate_slug_index name = [] → noAlnum name = true) ∧
    (generate_slug_gs name = [] → noAlnum name = true) :=
  ⟨slugOk_generate_slug_index name, slugOk_generate_slug_gs name,
    generate_slug_index_empty, generate_slug_gs_empty⟩

theorem claim_C1_witness :
    noAlnum ((" .. ").data) = true ∧ noAlnum (("--").data) = true :=
  ⟨(claim_C1_slug_invariant ((" .. ").data)).2.2.1 (by decide),
    (claim_C1_slug_invariant (("--").data)).2.2.2 (by decide)⟩

/-- Claim C2, counterexample: the generate_slug of generate_slugs.py is
not period-aware; a period not followed by a space does not separate
tokens with a hyphen but silently merges them. -/
theorem claim_C2_counterexample :
    generate_slug_gs (("a.b").data) = ("ab").data ∧
      generate_slug_gs (("a.b").data) ≠ ("a-b").data := by
  constructor
  · decide
  · decide

/-- Claim C2, amended: the generate_slug of index.py follows the
period-aware canonical algorithm of the spec step by step (so
generate_slug_index of "R.  J Prabhas" is "r-j-prabhas" and a bare period
still separates tokens), while the generate_slug of generate_slugs.py
only hyphenates spaces and strips periods; the two still agree on
"R.  J Prabhas" because there the periods are adjacent to spaces. -/
theorem claim_C2_period_aware :
    (∀ s : Str, generate_slug_index s = specSlug s) ∧
    generate_slug_index (("R.  J Prabhas").data) = ("r-j-prabhas").data ∧
    generate_slug_index (("a.b").data) = ("a-b").data ∧
    generate_slug_gs (("R.  J Prabhas").data) = ("r-j-prabhas").data :=
  ⟨generate_slug_index_eq_specSlug, by decide, by decide, by decide⟩

/-- Claim C6: both generate_slug implementations are idempotent on every
input string. -/
theorem claim_C6_idempotent (s : Str) :
    generate_slug_index (generate_slug_index s) = generate_slug_index s ∧
    generate_slug_gs (generate_slug_gs s) = generate_slug_gs s :=
  ⟨generate_slug_index_fixed (slugOk_generate_slug_index s),
    generate_slug_gs_fixed (slugOk_generate_slug_gs s)⟩

/-! Model of the sheet reconciler (process_students of both variants).
The remote sheet is modelled by the fetched grid (a list of rows of
strings) plus a write oracle standing for gspread update_cell, which
either succeeds or raises an error message; applied writes are
accumulated. Header writes (sheet.update of A1 when a column is
appended) are modelled as always succeeding, matching the setup phase
that is outside the per-row try/except. -/

inductive RowStatus
  | updated
  | would_update
  | unchanged
  | error
deriving DecidableEq

inductive WriteOp
  | headerWrite (hdr : List Str)
  | cellWrite (row col : Nat) (val : Str)
deriving DecidableEq

/-- The write collaborator: given row, column and value, gspread
update_cell either succeeds or raises with a message. -/
abbrev Oracle := Nat → Nat → Str → Except Str Unit

/-- An oracle whose writes always succeed. -/
def okOracle : Oracle := fun _ _ _ => Except.ok ()

inductive RunError
  | nameColMissing
  | indexError
deriving DecidableEq

structure RowResultGs where
  name : Str
  slug : Option Str
  url : Option Str
  status : RowStatus
  error : Option Str
deriving DecidableEq

structure RowResultIx where
  name : Str
  slug : Option Str
  status : RowStatus
  error : Option Str
deriving DecidableEq

structure Summary (ρ : Type) where
  processed : Nat
  updated : Nat
  errors : Nat
  results : Option (List ρ)
deriving DecidableEq

/-- Current cell value: `row[col - 1].strip() if len(row) >= col else ""`. -/
def currentCell (row : List Str) (col : Nat) : Str :=
  if col ≤ row.length then pyStrip (row.getD (col - 1) []) else []

/-- One optional cell write (the slug and pass-url updates, and the inner
write of the status update): if the desired value differs from the
current one, either just report in dry-run mode or call the write
oracle; a raised write error propagates to the per-row handler. Returns
applied writes and the needs_update contribution. -/
def writeStep (oracle : Oracle) (dryRun : Bool) (rowIdx col : Nat)
    (current desired : Str) : Except Str (List WriteOp × Bool) :=
  if current ≠ desired then
    if dryRun then Except.ok ([], true)
    else
      match oracle rowIdx col desired with
      | Except.ok _ => Except.ok ([WriteOp.cellWrite rowIdx col desired], true)
      | Except.error e => Except.error e
  else Except.ok ([], false)

def completedStr : Str := ("completed").data

/-- The status update of index.py (lines 207 to 217): guarded by the
current status not being "completed" case-insensitively, the new status
is "completed" when the slug is non-empty, and is written only when
non-empty and different from the lowercased current status. -/
def statusStep (oracle : Oracle) (dryRun : Bool) (rowIdx col : Nat)
    (slug current_status : Str) : Except Str (List WriteOp × Bool) :=
  if current_status = [] ∨ current_status.map Char.toLower ≠ completedStr then
    let new_status := if slug ≠ [] then completedStr else []
    if new_status ≠ [] ∧ current_status.map Char.toLower ≠ new_status then
      if dryRun then Except.ok ([], true)
      else
        match oracle rowIdx col new_status with
        | Except.ok _ => Except.ok ([WriteOp.cellWrite rowIdx col new_status], true)
        | Except.error e => Except.error e
    else Except.ok ([], false)
  else Except.ok ([], false)

/-- Model of generate_pass_url: base_url + "/pass/" + slug. -/
def generate_pass_url (base_url slug : Str) : Str :=
  base_url ++ ("/pass/").data ++ slug

/-- Per-row body of process_students in generate_slugs.py (URL mode):
compute slug and pass url, read current cells, update each differing
cell; a write failure degrades the row to an error outcome carrying the
message (earlier applied writes of the same row remain applied). -/
def processRowGs (oracle : Oracle) (dryRun : Bool) (baseUrl : Str)
    (slugCol urlCol rowIdx : Nat) (row : List Str) (name : Str) :
    List WriteOp × RowResultGs :=
  let slug := generate_slug_gs name
  let pass_url := generate_pass_url baseUrl slug
  let current_slug := currentCell row slugCol
  let current_url := currentCell row urlCol
  match writeStep oracle dryRun rowIdx slugCol current_slug slug with
  | Except.error e =>
    ([], { name := name, slug := none, url := none, status := RowStatus.error, error := some e })
  | Except.ok (w1, n1) =>
    match writeStep oracle dryRun rowIdx urlCol current_url pass_url with
    | Except.error e =>
      (w1, { name := name, slug := none, url := none, status := RowStatus.error, error := some e })
    | Except.ok (w2, n2) =>
      let needs := n1 || n2
      (w1 ++ w2,
        { name := name
          slug := some slug
          url := some pass_url
          status := if needs && !dryRun then RowStatus.updated
            else if dryRun then RowStatus.would_update else RowStatus.unchanged
          error := none })

/-- Per-row body of process_students in index.py (status mode). -/
def processRowIx (oracle : Oracle) (dryRun : Bool)
    (slugCol statusCol rowIdx : Nat) (row : List Str) (name : Str) :
    List WriteOp × RowResultIx :=
  let slug := generate_slug_index name
  let current_slug := currentCell row slugCol
  let current_status := currentCell row statusCol
  match writeStep oracle dryRun rowIdx slugCol current_slug slug with
  | Except.error e =>
    ([], { name := name, slug := none, status := RowStatus.error, error := some e })
  | Except.ok (w1, n1) =>
    match statusStep oracle dryRun rowIdx statusCol slug current_status with
    | Except.error e =>
      (w1, { name := name, slug := none, status := RowStatus.error, error := some e })
    | Except.ok (w2, n2) =>
      let needs := n1 || n2
      (w1 ++ w2,
        { name := name
          slug := some slug
          status := if needs && !dryRun then RowStatus.updated
            else if dryRun then RowStatus.would_update else RowStatus.unchanged
          error := none })

structure LoopState (ρ : Type) where
  writes : List WriteOp
  processed : Nat
  updated : Nat
  errors : Nat
  results : List ρ

/-- Bookkeeping after one processed row: the error path increments the
error counter; the success path increments processed (and updated when
at least one write was applied in live mode, which is exactly when the
recorded status is updated); either path appends one result. -/
def stepState {ρ : Type} (stat : ρ → RowStatus) (st : LoopState ρ)
    (ws : List WriteOp) (res : ρ) : LoopState ρ :=
  if stat res = RowStatus.error then
    { st with
      writes := st.writes ++ ws
      errors := st.errors + 1
      results := st.results ++ [res] }
  else
    { st with
      writes := st.writes ++ ws
      updated := st.updated + (if stat res = RowStatus.updated then 1 else 0)
      processed := st.processed + 1
      results := st.results ++ [res] }

/-- The shared row loop of process_students (both variants): skip empty
rows, raise IndexError on a non-empty row shorter than the Name column,
skip rows whose Name cell is empty or whitespace, and otherwise run the
per-row body and record its outcome. -/
def runLoop {ρ : Type} (stat : ρ → RowStatus)
    (body : Nat → List Str → Str → List WriteOp × ρ) (nameCol : Nat) :
    Nat → List (List Str) → LoopState ρ → Except RunError (LoopState ρ)
  | _, [], st => Except.ok st
  | rowIdx, row :: rest, st =>
    if row = [] then runLoop stat body nameCol (rowIdx + 1) rest st
    else if row.length < nameCol then Except.error RunError.indexError
    else
      let cell := row.getD (nameCol - 1) []
      if cell = [] then runLoop stat body nameCol (rowIdx + 1) rest st
      else
        let name := pyStrip cell
        if name = [] then runLoop stat body nameCol (rowIdx + 1) rest st
        else
          let wr := body rowIdx row name
          runLoop stat body nameCol (rowIdx + 1) rest (stepState stat st wr.1 wr.2)

/-- Model of get_column_index of generate_slugs.py: 1-based position of
the first header cell equal (exactly) to the column name. -/
def get_column_index (header_row : List Str) (column_name : Str) : Option Nat :=
  match header_row.findIdx? (fun h => decide (h = column_name)) with
  | some i => some (i + 1)
  | none => none

def nameStr : Str := ("Name").data

def slugCapStr : Str := ("Slug").data

def passUrlStr : Str := ("Pass URL").data

def nameLowStr : Str := ("name").data

def slugLowStr : Str := ("slug").data

def statusStr : Str := ("status").data

/-- Ensure a logical column exists: when the lookup failed, append the
column name to the header, whose new length becomes the binding, and
write the header row back. -/
def ensureCol (headers : List Str) (found : Option Nat) (colName : Str) :
    Nat × List Str × List WriteOp :=
  match found with
  | some c => (c, headers, [])
  | none =>
    let h2 := headers ++ [colName]
    (h2.length, h2, [WriteOp.headerWrite h2])

/-- Model of SlugGenerator.process_students of generate_slugs.py: empty
grid short-circuits to a summary with only the three counters; the Name,
Slug and Pass URL columns are resolved on the fetched header (Slug and
Pass URL created when absent); then the row loop runs on the data rows. -/
def process_students_gs (oracle : Oracle) (baseUrlRaw : Str) (dryRun : Bool)
    (all_values : List (List Str)) : Except RunError (List WriteOp × Summary RowResultGs) :=
  let base_url := stripEnd (fun c => decide (c = '/')) baseUrlRaw
  match all_values with
  | [] => Except.ok ([], { processed := 0, updated := 0, errors := 0, results := none })
  | headers :: dataRows =>
    match get_column_index headers nameStr with
    | none => Except.error RunError.nameColMissing
    | some name_col =>
      let ec1 := ensureCol headers (get_column_index headers slugCapStr) slugCapStr
      let ec2 := ensureCol ec1.2.1 (get_column_index headers passUrlStr) passUrlStr
      match runLoop (fun r => r.status)
          (processRowGs oracle dryRun base_url ec1.1 ec2.1) name_col
          2 dataRows ⟨ec1.2.2 ++ ec2.2.2, 0, 0, 0, []⟩ with
      | Except.error e => Except.error e
      | Except.ok st =>
        Except.ok (st.writes,
          { processed := st.processed
            updated := st.updated
            errors := st.errors
            results := some st.results })

/-- Model of the case-insensitive column scan of index.py (lines 142 to
149): one pass over the header, remembering for each of name, slug and
status the 1-based position of the matching cell (a later match
overwrites an earlier one). -/
def findColsLoop : Nat → List Str → Option Nat × Option Nat × Option Nat →
    Option Nat × Option Nat × Option Nat
  | _, [], acc => acc
  | idx, h :: rest, (n, s, t) =>
    let hl := (pyStrip h).map Char.toLower
    let acc2 :=
      if hl = nameLowStr then (some (idx + 1), s, t)
      else if hl = slugLowStr then (n, some (idx + 1), t)
      else if hl = statusStr then (n, s, some (idx + 1))
      else (n, s, t)
    findColsLoop (idx + 1) rest acc2

def findColsIx (headers : List Str) : Option Nat × Option Nat × Option Nat :=
  findColsLoop 0 headers (none, none, none)

/-- Model of SlugGenerator.process_students of index.py (status mode). -/
def process_students_ix (oracle : Oracle) (dryRun : Bool)
    (all_values : List (List Str)) : Except RunError (List WriteOp × Summary RowResultIx) :=
  match all_values with
  | [] => Except.ok ([], { processed := 0, updated := 0, errors := 0, results := none })
  | headers :: dataRows =>
    match findColsIx headers with
    | (none, _, _) => Except.error RunError.nameColMissing
    | (some name_col, slug0, status0) =>
      let ec1 := ensureCol headers slug0 slugLowStr
      let ec2 := ensureCol ec1.2.1 status0 statusStr
      match runLoop (fun r => r.status)
          (processRowIx oracle dryRun ec1.1 ec2.1) name_col
          2 dataRows ⟨ec1.2.2 ++ ec2.2.2, 0, 0, 0, []⟩ with
      | Except.error e => Except.error e
      | Except.ok st =>
        Except.ok (st.writes,
          { processed := st.processed
            updated := st.updated
            errors := st.errors
            results := some st.results })

theorem writeStep_ok_flag {oracle : Oracle} {dry : Bool} {i c : Nat} {cur des : Str}
    {w : List WriteOp} {b : Bool}
    (h : writeStep oracle dry i c cur des = Except.ok (w, b)) :
    b = decide ¬(cur = des) := by
  rw [writeStep] at h
  split at h
  · rename_i hne
    split at h
    · simp only [Except.ok.injEq, Prod.mk.injEq] at h
      simp [hne, ← h.2]
    · split at h
      · simp only [Except.ok.injEq, Prod.mk.injEq] at h
        simp [hne, ← h.2]
      · simp at h
  · rename_i hne
    simp only [ne_eq, not_not] at hne
    simp only [Except.ok.injEq, Prod.mk.injEq] at h
    simp [hne, ← h.2]

theorem writeStep_ok_writes {oracle : Oracle} {dry : Bool} {i c : Nat} {cur des : Str}
    {w : List WriteOp} {b : Bool}
    (h : writeStep oracle dry i c cur des = Except.ok (w, b)) :
    (∀ x ∈ w, x = WriteOp.cellWrite i c des) ∧ (dry = true → w = []) ∧
      (cur = des → w = []) := by
  rw [writeStep] at h
  split at h
  · rename_i hne
    simp only [ne_eq] at hne
    split at h
    · rename_i hdry
      simp only [Except.ok.injEq, Prod.mk.injEq] at h
      refine ⟨?_, fun _ => h.1.symm, fun hc => absurd hc hne⟩
      intro x hx
      rw [← h.1] at hx
      simp at hx
    · rename_i hdry
      split at h
      · simp only [Except.ok.injEq, Prod.mk.injEq] at h
        refine ⟨?_, fun hc => absurd hc hdry, fun hc => absurd hc hne⟩
        intro x hx
        rw [← h.1] at hx
        simp at hx
        exact hx
      · simp at h
  · simp only [Except.ok.injEq, Prod.mk.injEq] at h
    refine ⟨?_, fun _ => h.1.symm, fun _ => h.1.symm⟩
    intro x hx
    rw [← h.1] at hx
    simp at hx

theorem writeStep_dry {oracle : Oracle} {i c : Nat} {cur des : Str} :
    writeStep oracle true i c cur des = Except.ok ([], decide ¬(cur = des)) := by
  rw [writeStep]
  by_cases he : cur = des
  · rw [if_neg (by simp [he])]
    simp [he]
  · rw [if_pos (by simp [he]), if_pos rfl]
    simp [he]

theorem statusStep_ok_flag {oracle : Oracle} {dry : Bool} {i c : Nat} {slug cur : Str}
    {w : List WriteOp} {b : Bool}
    (h : statusStep oracle dry i c slug cur = Except.ok (w, b)) :
    b = (decide ¬(slug = []) && decide ¬(cur.map Char.toLower = completedStr)) := by
  rw [statusStep] at h
  split at h
  · rename_i hg
    by_cases hs : slug = []
    · simp only [hs, ne_eq, not_true_eq_false, ite_false] at h
      rw [if_neg (by simp)] at h
      simp only [Except.ok.injEq, Prod.mk.injEq] at h
      simp [hs, ← h.2]
    · simp only [hs, ne_eq, not_false_eq_true, ite_true] at h
      split at h
      · rename_i hcond
        have hc : ¬(cur.map Char.toLower = completedStr) := hcond.2
        split at h
        · simp only [Except.ok.injEq, Prod.mk.injEq] at h
          simp [hs, hc, ← h.2]
        · split at h
          · simp only [Except.ok.injEq, Prod.mk.injEq] at h
            simp [hs, hc, ← h.2]
          · simp at h
      · rename_i hcond
        have hc : cur.map Char.toLower = completedStr := by
          by_contra hcc
          exact hcond ⟨by simp [completedStr], hcc⟩
        simp only [Except.ok.injEq, Prod.mk.injEq] at h
        simp [hs, hc, ← h.2]
  · rename_i hg
    push_neg at hg
    simp only [Except.ok.injEq, Prod.mk.injEq] at h
    simp [hg.2, ← h.2]

theorem statusStep_ok_writes {oracle : Oracle} {dry : Bool} {i c : Nat} {slug cur : Str}
    {w : List WriteOp} {b : Bool}
    (h : statusStep oracle dry i c slug cur = Except.ok (w, b)) :
    (∀ x ∈ w, x = WriteOp.cellWrite i c completedStr) ∧ (dry = true → w = []) ∧
      (w ≠ [] → slug ≠ [] ∧ cur.map Char.toLower ≠ completedStr ∧ dry = false) := by
  rw [statusStep] at h
  split at h
  · by_cases hs : slug = []
    · simp only [hs, ne_eq, not_true_eq_false, ite_false] at h
      rw [if_neg (by simp)] at h
      simp only [Except.ok.injEq, Prod.mk.injEq] at h
      refine ⟨?_, fun _ => h.1.symm, fun hw => absurd h.1.symm hw⟩
      intro x hx
      rw [← h.1] at hx
      simp at hx
    · simp only [hs, ne_eq, not_false_eq_true, ite_true] at h
      split at h
      · rename_i hcond
        split at h
        · rename_i hdry
          simp only [Except.ok.injEq, Prod.mk.injEq] at h
          refine ⟨?_, fun _ => h.1.symm, fun hw => absurd h.1.symm hw⟩
          intro x hx
          rw [← h.1] at hx
          simp at hx
        · rename_i hdry
          split at h
          · simp only [Except.ok.injEq, Prod.mk.injEq] at h
            refine ⟨?_, fun hc => absurd hc hdry, ?_⟩
            · intro x hx
              rw [← h.1] at hx
              simp at hx
              exact hx
            · intro _
              exact ⟨hs, hcond.2, by simp at hdry; exact hdry⟩
          · simp at h
      · simp only [Except.ok.injEq, Prod.mk.injEq] at h
        refine ⟨?_, fun _ => h.1.symm, fun hw => absurd h.1.symm hw⟩
        intro x hx
        rw [← h.1] at hx
        simp at hx
  · simp only [Except.ok.injEq, Prod.mk.injEq] at h
    refine ⟨?_, fun _ => h.1.symm, fun hw => absurd h.1.symm hw⟩
    intro x hx
    rw [← h.1] at hx
    simp at hx

theorem writeStep_error {oracle : Oracle} {dry : Bool} {i c : Nat} {cur des : Str} {e : Str}
    (h : writeStep oracle dry i c cur des = Except.error e) :
    oracle i c des = Except.error e ∧ ¬(cur = des) ∧ dry = false := by
  rw [writeStep] at h
  split at h
  · rename_i hne
    simp only [ne_eq] at hne
    split at h
    · simp at h
    · rename_i hdry
      split at h
      · simp at h
      · rename_i u ho
        simp only [Except.error.injEq] at h
        exact ⟨h ▸ ho, hne, by simp at hdry; exact hdry⟩
  · simp at h

theorem statusStep_error {oracle : Oracle} {dry : Bool} {i c : Nat} {slug cur : Str} {e : Str}
    (h : statusStep oracle dry i c slug cur = Except.error e) :
    oracle i c completedStr = Except.error e ∧ ¬(slug = []) ∧ dry = false := by
  rw [statusStep] at h
  split at h
  · by_cases hs : slug = []
    · simp only [hs, ne_eq, not_true_eq_false, ite_false] at h
      rw [if_neg (by simp)] at h
      simp at h
    · simp only [hs, ne_eq, not_false_eq_true, ite_true] at h
      split at h
      · split at h
        · simp at h
        · rename_i hdry
          split at h
          · simp at h
          · rename_i u ho
            simp only [Except.error.injEq] at h
            exact ⟨h ▸ ho, hs, by simp at hdry; exact hdry⟩
      · simp at h
  · simp at h

/-- The pending-write test of URL mode: the slug cell or the pass-url cell
differs from its desired value. -/
def gsPending (baseUrl : Str) (slugCol urlCol : Nat) (row : List Str) (name : Str) : Bool :=
  decide ¬(currentCell row slugCol = generate_slug_gs name) ||
  decide ¬(currentCell row urlCol = generate_pass_url baseUrl (generate_slug_gs name))

/-- The pending-write test of status mode: the slug cell differs from the
derived slug, or the status write is due (non-empty slug and current
status not already "completed" case-insensitively). -/
def ixPending (slugCol statusCol : Nat) (row : List Str) (name : Str) : Bool :=
  decide ¬(currentCell row slugCol = generate_slug_index name) ||
  (decide ¬(generate_slug_index name = []) &&
    decide ¬((currentCell row statusCol).map Char.toLower = completedStr))

theorem processRowGs_eq {oracle : Oracle} {dry : Bool} {baseUrl : Str} {sc uc i : Nat}
    {row : List Str} {name : Str} {w1 w2 : List WriteOp} {n1 n2 : Bool}
    (h1 : writeStep oracle dry i sc (currentCell row sc) (generate_slug_gs name) =
      Except.ok (w1, n1))
    (h2 : writeStep oracle dry i uc (currentCell row uc)
      (generate_pass_url baseUrl (generate_slug_gs name)) = Except.ok (w2, n2)) :
    processRowGs oracle dry baseUrl sc uc i row name =
      (w1 ++ w2,
        { name := name
          slug := some (generate_slug_gs name)
          url := some (generate_pass_url baseUrl (generate_slug_gs name))
          status := if (n1 || n2) && !dry then RowStatus.updated
            else if dry then RowStatus.would_update else RowStatus.unchanged
          error := none }) := by
  rw [processRowGs]
  simp only [h1, h2]

theorem processRowIx_eq {oracle : Oracle} {dry : Bool} {sc tc i : Nat}
    {row : List Str} {name : Str} {w1 w2 : List WriteOp} {n1 n2 : Bool}
    (h1 : writeStep oracle dry i sc (currentCell row sc) (generate_slug_index name) =
      Except.ok (w1, n1))
    (h2 : statusStep oracle dry i tc (generate_slug_index name) (currentCell row tc) =
      Except.ok (w2, n2)) :
    processRowIx oracle dry sc tc i row name =
      (w1 ++ w2,
        { name := name
          slug := some (generate_slug_index name)
          status := if (n1 || n2) && !dry then RowStatus.updated
            else if dry then RowStatus.would_update else RowStatus.unchanged
          error := none }) := by
  rw [processRowIx]
  simp only [h1, h2]

theorem processRowGs_error_eq1 {oracle : Oracle} {dry : Bool} {baseUrl : Str} {sc uc i : Nat}
    {row : List Str} {name : Str} {e : Str}
    (h1 : writeStep oracle dry i sc (currentCell row sc) (generate_slug_gs name) =
      Except.error e) :
    processRowGs oracle dry baseUrl sc uc i row name =
      ([], { name := name, slug := none, url := none, status := RowStatus.error,
             error := some e }) := by
  rw [processRowGs]
  simp only [h1]

theorem processRowGs_error_eq2 {oracle : Oracle} {dry : Bool} {baseUrl : Str} {sc uc i : Nat}
    {row : List Str} {name : Str} {w1 : List WriteOp} {n1 : Bool} {e : Str}
    (h1 : writeStep oracle dry i sc (currentCell row sc) (generate_slug_gs name) =
      Except.ok (w1, n1))
    (h2 : writeStep oracle dry i uc (currentCell row uc)
      (generate_pass_url baseUrl (generate_slug_gs name)) = Except.error e) :
    processRowGs oracle dry baseUrl sc uc i row name =
      (w1, { name := name, slug := none, url := none, status := RowStatus.error,
             error := some e }) := by
  rw [processRowGs]
  simp only [h1, h2]

theorem processRowIx_error_eq1 {oracle : Oracle} {dry : Bool} {sc tc i : Nat}
    {row : List Str} {name : Str} {e : Str}
    (h1 : writeStep oracle dry i sc (currentCell row sc) (generate_slug_index name) =
      Except.error e) :
    processRowIx oracle dry sc tc i row name =
      ([], { name := name, slug := none, status := RowStatus.error, error := some e }) := by
  rw [processRowIx]
  simp only [h1]

theorem processRowIx_error_eq2 {oracle : Oracle} {dry : Bool} {sc tc i : Nat}
    {row : List Str} {name : Str} {w1 : List WriteOp} {n1 : Bool} {e : Str}
    (h1 : writeStep oracle dry i sc (currentCell row sc) (generate_slug_index name) =
      Except.ok (w1, n1))
    (h2 : statusStep oracle dry i tc (generate_slug_index name) (currentCell row tc) =
      Except.error e) :
    processRowIx oracle dry sc tc i row name =
      (w1, { name := name, slug := none, status := RowStatus.error, error := some e }) := by
  rw [processRowIx]
  simp only [h1, h2]

theorem processRowGs_status_char {oracle : Oracle} {dry : Bool} {baseUrl : Str}
    {sc uc i : Nat} {row : List Str} {name : Str}
    (hne : (processRowGs oracle dry baseUrl sc uc i row name).2.status ≠ RowStatus.error) :
    ((processRowGs oracle dry baseUrl sc uc i row name).2.status = RowStatus.updated ↔
      gsPending baseUrl sc uc row name = true ∧ dry = false) ∧
    ((processRowGs oracle dry baseUrl sc uc i row name).2.status = RowStatus.would_update ↔
      dry = true) ∧
    ((processRowGs oracle dry baseUrl sc uc i row name).2.status = RowStatus.unchanged ↔
      gsPending baseUrl sc uc row name = false ∧ dry = false) ∧
    (gsPending baseUrl sc uc row name = false →
      (processRowGs oracle dry baseUrl sc uc i row name).1 = []) := by
  cases hw1 : writeStep oracle dry i sc (currentCell row sc) (generate_slug_gs name) with
  | error e =>
    rw [processRowGs_error_eq1 hw1] at hne
    simp at hne
  | ok p1 =>
    obtain ⟨w1, n1⟩ := p1
    cases hw2 : writeStep oracle dry i uc (currentCell row uc)
        (generate_pass_url baseUrl (generate_slug_gs name)) with
    | error e =>
      rw [processRowGs_error_eq2 hw1 hw2] at hne
      simp at hne
    | ok p2 =>
      obtain ⟨w2, n2⟩ := p2
      have e1 := writeStep_ok_flag hw1
      have e2 := writeStep_ok_flag hw2
      have epend : gsPending baseUrl sc uc row name = (n1 || n2) := by
        rw [gsPending, e1, e2]
      rw [processRowGs_eq hw1 hw2, epend]
      refine ⟨?_, ?_, ?_, ?_⟩
      · cases dry <;> cases n1 <;> cases n2 <;> simp
      · cases dry <;> cases n1 <;> cases n2 <;> simp
      · cases dry <;> cases n1 <;> cases n2 <;> simp
      · intro hp
        have hn1 : n1 = false := by
          cases n1
          · rfl
          · simp at hp
        have hn2 : n2 = false := by
          cases n2
          · rfl
          · simp at hp
        have hc1 : currentCell row sc = generate_slug_gs name := by
          rw [hn1] at e1
          rw [eq_comm] at e1
          simpa using e1
        have hc2 : currentCell row uc = generate_pass_url baseUrl (generate_slug_gs name) := by
          rw [hn2] at e2
          rw [eq_comm] at e2
          simpa using e2
        simp only
        rw [(writeStep_ok_writes hw1).2.2 hc1, (writeStep_ok_writes hw2).2.2 hc2]
        rfl

theorem processRowIx_status_char {oracle : Oracle} {dry : Bool}
    {sc tc i : Nat} {row : List Str} {name : Str}
    (hne : (processRowIx oracle dry sc tc i row name).2.status ≠ RowStatus.error) :
    ((processRowIx oracle dry sc tc i row name).2.status = RowStatus.updated ↔
      ixPending sc tc row name = true ∧ dry = false) ∧
    ((processRowIx oracle dry sc tc i row name).2.status = RowStatus.would_update ↔
      dry = true) ∧
    ((processRowIx oracle dry sc tc i row name).2.status = RowStatus.unchanged ↔
      ixPending sc tc row name = false ∧ dry = false) ∧
    (ixPending sc tc row name = false →
      (processRowIx oracle dry sc tc i row name).1 = []) := by
  cases hw1 : writeStep oracle dry i sc (currentCell row sc) (generate_slug_index name) with
  | error e =>
    rw [processRowIx_error_eq1 hw1] at hne
    simp at hne
  | ok p1 =>
    obtain ⟨w1, n1⟩ := p1
    cases hw2 : statusStep oracle dry i tc (generate_slug_index name) (currentCell row tc) with
    | error e =>
      rw [processRowIx_error_eq2 hw1 hw2] at hne
      simp at hne
    | ok p2 =>
      obtain ⟨w2, n2⟩ := p2
      have e1 := writeStep_ok_flag hw1
      have e2 := statusStep_ok_flag hw2
      have epend : ixPending sc tc row name = (n1 || n2) := by
        rw [ixPending, e1, e2]
      rw [processRowIx_eq hw1 hw2, epend]
      refine ⟨?_, ?_, ?_, ?_⟩
      · cases dry <;> cases n1 <;> cases n2 <;> simp
      · cases dry <;> cases n1 <;> cases n2 <;> simp
      · cases dry <;> cases n1 <;> cases n2 <;> simp
      · intro hp
        have hn1 : n1 = false := by
          cases n1
          · rfl
          · simp at hp
        have hn2 : n2 = false := by
          cases n2
          · rfl
          · simp at hp
        have hc1 : currentCell row sc = generate_slug_index name := by
          rw [hn1] at e1
          rw [eq_comm] at e1
          simpa using e1
        have hw2e : w2 = [] := by
          by_contra hw2ne
          have := (statusStep_ok_writes hw2).2.2 hw2ne
          rw [hn2, eq_comm] at e2
          simp only [Bool.and_eq_false_iff, decide_eq_false_iff_not, not_not] at e2
          rcases e2 with e2 | e2
          · exact this.1 e2
          · exact this.2.1 e2
        simp only
        rw [(writeStep_ok_writes hw1).2.2 hc1, hw2e]
        rfl

theorem statusStep_dry (oracle : Oracle) (i c : Nat) (slug cur : Str) :
    ∃ b, statusStep oracle true i c slug cur = Except.ok ([], b) := by
  rw [statusStep]
  by_cases hg : cur = [] ∨ cur.map Char.toLower ≠ completedStr
  · rw [if_pos hg]
    by_cases hs : slug = []
    · simp only [hs, ne_eq, not_true_eq_false, ite_false]
      rw [if_neg (by simp)]
      exact ⟨false, rfl⟩
    · simp only [hs, ne_eq, not_false_eq_true, ite_true]
      by_cases hc : List.map Char.toLower cur = completedStr
      · rw [if_neg (fun hcon => hcon.2 hc)]
        exact ⟨false, rfl⟩
      · rw [if_pos ⟨by simp [completedStr], hc⟩]
        exact ⟨true, rfl⟩
  · rw [if_neg hg]
    exact ⟨false, rfl⟩

theorem processRowGs_dry (oracle : Oracle) (baseUrl : Str) (sc uc i : Nat)
    (row : List Str) (name : Str) :
    processRowGs oracle true baseUrl sc uc i row name =
      ([], { name := name
             slug := some (generate_slug_gs name)
             url := some (generate_pass_url baseUrl (generate_slug_gs name))
             status := RowStatus.would_update
             error := none }) := by
  rw [processRowGs_eq writeStep_dry writeStep_dry]
  simp

theorem processRowIx_dry (oracle : Oracle) (sc tc i : Nat)
    (row : List Str) (name : Str) :
    processRowIx oracle true sc tc i row name =
      ([], { name := name
             slug := some (generate_slug_index name)
             status := RowStatus.would_update
             error := none }) := by
  obtain ⟨b2, hb2⟩ := statusStep_dry oracle i tc (generate_slug_index name)
    (currentCell row tc)
  rw [processRowIx_eq writeStep_dry hb2]
  simp

/-- Counter bookkeeping invariant of the row loop: one result per counted
row, errors counting exactly the error outcomes, and updated bounded by
processed. -/
def countersOk {ρ : Type} (stat : ρ → RowStatus) (st : LoopState ρ) : Prop :=
  st.results.length = st.processed + st.errors ∧
  st.updated ≤ st.processed ∧
  st.errors = st.results.countP (fun r => decide (stat r = RowStatus.error))

theorem stepState_countersOk {ρ : Type} (stat : ρ → RowStatus) (st : LoopState ρ)
    (ws : List WriteOp) (res : ρ) (h : countersOk stat st) :
    countersOk stat (stepState stat st ws res) := by
  obtain ⟨h1, h2, h3⟩ := h
  rw [stepState]
  by_cases he : stat res = RowStatus.error
  · rw [if_pos he]
    refine ⟨?_, ?_, ?_⟩
    · simp only [List.length_append, List.length_singleton, h1]
      omega
    · exact h2
    · simp only [List.countP_append, ← h3]
      simp [List.countP_cons, he]
  · rw [if_neg he]
    refine ⟨?_, ?_, ?_⟩
    · simp only [List.length_append, List.length_singleton, h1]
      omega
    · simp only
      by_cases hu : stat res = RowStatus.updated <;> simp [hu] <;> omega
    · simp only [List.countP_append, ← h3]
      simp [List.countP_cons, he]

theorem stepState_results_length {ρ : Type} (stat : ρ → RowStatus) (st : LoopState ρ)
    (ws : List WriteOp) (res : ρ) :
    (stepState stat st ws res).results.length = st.results.length + 1 := by
  rw [stepState]
  by_cases he : stat res = RowStatus.error
  · rw [if_pos he]
    simp
  · rw [if_neg he]
    simp

theorem stepState_updated_const {ρ : Type} (stat : ρ → RowStatus) (st : LoopState ρ)
    (ws : List WriteOp) (res : ρ) (h : stat res ≠ RowStatus.updated) :
    (stepState stat st ws res).updated = st.updated := by
  rw [stepState]
  by_cases he : stat res = RowStatus.error
  · rw [if_pos he]
  · rw [if_neg he]
    simp [h]

theorem runLoop_countersOk {ρ : Type} {stat : ρ → RowStatus}
    {body : Nat → List Str → Str → List WriteOp × ρ} {nameCol : Nat} :
    ∀ (rows : List (List Str)) (rowIdx : Nat) (st st' : LoopState ρ),
      runLoop stat body nameCol rowIdx rows st = Except.ok st' →
      countersOk stat st → countersOk stat st' := by
  intro rows
  induction rows with
  | nil =>
    intro rowIdx st st' h hc
    simp only [runLoop, Except.ok.injEq] at h
    exact h ▸ hc
  | cons row rest ih =>
    intro rowIdx st st' h hc
    simp only [runLoop] at h
    split at h
    · exact ih _ _ _ h hc
    · split at h
      · simp at h
      · split at h
        · exact ih _ _ _ h hc
        · split at h
          · exact ih _ _ _ h hc
          · exact ih _ _ _ h (stepState_countersOk _ _ _ _ hc)

theorem runLoop_updated_const {ρ : Type} {stat : ρ → RowStatus}
    {body : Nat → List Str → Str → List WriteOp × ρ} {nameCol : Nat}
    (hbody : ∀ i row name, stat (body i row name).2 ≠ RowStatus.updated) :
    ∀ (rows : List (List Str)) (rowIdx : Nat) (st st' : LoopState ρ),
      runLoop stat body nameCol rowIdx rows st = Except.ok st' →
      st'.updated = st.updated := by
  intro rows
  induction rows with
  | nil =>
    intro rowIdx st st' h
    simp only [runLoop, Except.ok.injEq] at h
    rw [← h]
  | cons row rest ih =>
    intro rowIdx st st' h
    simp only [runLoop] at h
    split at h
    · exact ih _ _ _ h
    · split at h
      · simp at h
      · split at h
        · exact ih _ _ _ h
        · split at h
          · exact ih _ _ _ h
          · rw [ih _ _ _ h]
            exact stepState_updated_const _ _ _ _ (hbody _ _ _)

/-- Rows the loop does not skip: non-empty rows whose Name cell is
non-blank after stripping. -/
def countRelevant (nameCol : Nat) (rows : List (List Str)) : Nat :=
  rows.countP (fun row =>
    !(decide (row = []) || decide (pyStrip (row.getD (nameCol - 1) []) = [])))

theorem runLoop_results_count {ρ : Type} {stat : ρ → RowStatus}
    {body : Nat → List Str → Str → List WriteOp × ρ} {nameCol : Nat} :
    ∀ (rows : List (List Str)) (rowIdx : Nat) (st st' : LoopState ρ),
      runLoop stat body nameCol rowIdx rows st = Except.ok st' →
      st'.results.length = st.results.length + countRelevant nameCol rows := by
  intro rows
  induction rows with
  | nil =>
    intro rowIdx st st' h
    simp only [runLoop, Except.ok.injEq] at h
    rw [← h, countRelevant]
    simp
  | cons row rest ih =>
    intro rowIdx st st' h
    simp only [runLoop] at h
    split at h
    · rename_i h0
      rw [ih _ _ _ h]
      simp only [countRelevant, List.countP_cons, h0]
      simp
    · rename_i h0
      split at h
      · simp at h
      · split at h
        · rename_i hcell
          rw [ih _ _ _ h]
          have hps : pyStrip (row.getD (nameCol - 1) []) = [] := by
            rw [hcell]
            rfl
          simp only [countRelevant, List.countP_cons, hps]
          simp
        · rename_i hcell
          split at h
          · rename_i hname
            rw [ih _ _ _ h]
            simp only [countRelevant, List.countP_cons, hname]
            simp
          · rename_i hname
            rw [ih _ _ _ h, stepState_results_length]
            simp only [countRelevant, List.countP_cons]
            have hd0 : decide (row = []) = false := decide_eq_false h0
            have hd1 : decide (pyStrip (row.getD (nameCol - 1) []) = []) = false :=
              decide_eq_false hname
            rw [hd0, hd1]
            simp
            omega

/-- Position of the first list element satisfying p. -/
def firstIdx (p : Str → Bool) : List Str → Option Nat
  | [] => none
  | h :: rest => if p h then some 0 else (firstIdx p rest).map (· + 1)

/-- Position of the last list element satisfying p. -/
def lastIdx (p : Str → Bool) : List Str → Option Nat
  | [] => none
  | h :: rest =>
    match lastIdx p rest with
    | some k => some (k + 1)
    | none => if p h then some 0 else none

/-- The header-cell test of index.py: the cell, stripped then lowercased,
equals the target. -/
def matchIx (target : Str) (h : Str) : Bool :=
  decide ((pyStrip h).map Char.toLower = target)

theorem lastIdx_cons (p : Str → Bool) (h : Str) (rest : List Str) :
    lastIdx p (h :: rest) = match lastIdx p rest with
      | some k => some (k + 1)
      | none => if p h then some 0 else none := rfl

theorem lastIdx_lt_length {p : Str → Bool} :
    ∀ {hs : List Str} {k : Nat}, lastIdx p hs = some k → k < hs.length := by
  intro hs
  induction hs with
  | nil => intro k h; simp [lastIdx] at h
  | cons x rest ih =>
    intro k h
    rw [lastIdx_cons] at h
    cases hk : lastIdx p rest with
    | some m =>
      rw [hk] at h
      simp only [Option.some.injEq] at h
      have := ih hk
      simp only [List.length_cons]
      omega
    | none =>
      rw [hk] at h
      by_cases hp : p x
      · rw [if_pos hp] at h
        simp only [Option.some.injEq] at h
        simp only [List.length_cons]
        omega
      · rw [if_neg hp] at h
        simp at h

theorem lastIdx_matches {p : Str → Bool} :
    ∀ {hs : List Str} {k : Nat}, lastIdx p hs = some k → p (hs.getD k []) = true := by
  intro hs
  induction hs with
  | nil => intro k h; simp [lastIdx] at h
  | cons x rest ih =>
    intro k h
    rw [lastIdx_cons] at h
    cases hk : lastIdx p rest with
    | some m =>
      rw [hk] at h
      simp only [Option.some.injEq] at h
      rw [← h]
      simpa using ih hk
    | none =>
      rw [hk] at h
      by_cases hp : p x
      · rw [if_pos hp] at h
        simp only [Option.some.injEq] at h
        rw [← h]
        simpa using hp
      · rw [if_neg hp] at h
        simp at h

/-- Accumulator update used to describe one slot of findColsLoop. -/
def bump (idx : Nat) (a : Option Nat) : Option Nat → Option Nat
  | some k => some (idx + k + 1)
  | none => a

theorem bump_cons_true {p : Str → Bool} {h : Str} (idx : Nat) (a : Option Nat)
    (rest : List Str) (hp : p h = true) :
    bump idx a (lastIdx p (h :: rest)) = bump (idx + 1) (some (idx + 1)) (lastIdx p rest) := by
  rw [lastIdx_cons]
  cases hk : lastIdx p rest with
  | some k =>
    simp only [bump]
    congr 1
    omega
  | none =>
    rw [if_pos hp]
    simp [bump]

theorem bump_cons_false {p : Str → Bool} {h : Str} (idx : Nat) (a : Option Nat)
    (rest : List Str) (hp : p h = false) :
    bump idx a (lastIdx p (h :: rest)) = bump (idx + 1) a (lastIdx p rest) := by
  rw [lastIdx_cons]
  cases hk : lastIdx p rest with
  | some k =>
    simp only [bump]
    congr 1
    omega
  | none =>
    rw [if_neg (by simp [hp])]
    rfl

theorem findColsLoop_eq :
    ∀ (hs : List Str) (idx : Nat) (n s t : Option Nat),
      findColsLoop idx hs (n, s, t) =
        (bump idx n (lastIdx (matchIx nameLowStr) hs),
          bump idx s (lastIdx (matchIx slugLowStr) hs),
          bump idx t (lastIdx (matchIx statusStr) hs)) := by
  intro hs
  induction hs with
  | nil => intro idx n s t; rfl
  | cons h rest ih =>
    intro idx n s t
    by_cases h1 : (pyStrip h).map Char.toLower = nameLowStr
    · have m1 : matchIx nameLowStr h = true := by simp [matchIx, h1]
      have m2 : matchIx slugLowStr h = false := by
        simp [matchIx, h1, nameLowStr, slugLowStr]
      have m3 : matchIx statusStr h = false := by
        simp [matchIx, h1, nameLowStr, statusStr]
      simp only [findColsLoop, h1, if_true]
      rw [ih]
      rw [bump_cons_true idx n rest m1, bump_cons_false idx s rest m2,
        bump_cons_false idx t rest m3]
    · by_cases h2 : (pyStrip h).map Char.toLower = slugLowStr
      · have m1 : matchIx nameLowStr h = false := by simp [matchIx, h2, nameLowStr, slugLowStr]
        have m2 : matchIx slugLowStr h = true := by simp [matchIx, h2]
        have m3 : matchIx statusStr h = false := by
          simp [matchIx, h2, slugLowStr, statusStr]
        simp only [findColsLoop, h1, h2, if_false, if_true]
        rw [if_neg (show ¬slugLowStr = nameLowStr by decide)]
        rw [ih]
        rw [bump_cons_false idx n rest m1, bump_cons_true idx s rest m2,
          bump_cons_false idx t rest m3]
      · by_cases h3 : (pyStrip h).map Char.toLower = statusStr
        · have m1 : matchIx nameLowStr h = false := by
            simp [matchIx, h3, nameLowStr, statusStr]
          have m2 : matchIx slugLowStr h = false := by
            simp [matchIx, h3, slugLowStr, statusStr]
          have m3 : matchIx statusStr h = true := by simp [matchIx, h3]
          simp only [findColsLoop, h1, h2, h3, if_false, if_true]
          rw [if_neg (show ¬statusStr = nameLowStr by decide),
            if_neg (show ¬statusStr = slugLowStr by decide)]
          rw [ih]
          rw [bump_cons_false idx n rest m1, bump_cons_false idx s rest m2,
            bump_cons_true idx t rest m3]
        · have m1 : matchIx nameLowStr h = false := by simp [matchIx, h1]
          have m2 : matchIx slugLowStr h = false := by simp [matchIx, h2]
          have m3 : matchIx statusStr h = false := by simp [matchIx, h3]
          simp only [findColsLoop, h1, h2, h3, if_false]
          rw [ih]
          rw [bump_cons_false idx n rest m1, bump_cons_false idx s rest m2,
            bump_cons_false idx t rest m3]

theorem bump_zero_none (o : Option Nat) : bump 0 none o = o.map (· + 1) := by
  cases o with
  | none => rfl
  | some k =>
    show some (0 + k + 1) = some (k + 1)
    congr 1
    omega

theorem findColsIx_eq (hs : List Str) :
    findColsIx hs =
      ((lastIdx (matchIx nameLowStr) hs).map (· + 1),
        (lastIdx (matchIx slugLowStr) hs).map (· + 1),
        (lastIdx (matchIx statusStr) hs).map (· + 1)) := by
  rw [findColsIx, findColsLoop_eq, bump_zero_none, bump_zero_none, bump_zero_none]

theorem findIdx?_eq (p : Str → Bool) :
    ∀ (hs : List Str) (i : Nat), List.findIdx? p hs i = (firstIdx p hs).map (· + i) := by
  intro hs
  induction hs with
  | nil => intro i; rfl
  | cons h rest ih =>
    intro i
    show (if p h then some i else List.findIdx? p rest (i + 1)) = _
    rw [firstIdx]
    by_cases hp : p h
    · rw [if_pos hp, if_pos hp]
      show some i = some (0 + i)
      congr 1
      omega
    · rw [if_neg hp, if_neg hp, ih]
      cases firstIdx p rest with
      | none => rfl
      | some k =>
        show some (k + (i + 1)) = some (k + 1 + i)
        congr 1
        omega

theorem get_column_index_eq (hs : List Str) (col : Str) :
    get_column_index hs col = (firstIdx (fun h => decide (h = col)) hs).map (· + 1) := by
  rw [get_column_index, findIdx?_eq]
  cases firstIdx (fun h => decide (h = col)) hs with
  | none => rfl
  | some k =>
    show some (k + 0 + 1) = some (k + 1)
    congr 1

/-- Resolved slug column of the URL-mode run on a given header. -/
def slugColGs (headers : List Str) : Nat :=
  (ensureCol headers (get_column_index headers slugCapStr) slugCapStr).1

/-- Resolved pass-url column of the URL-mode run on a given header. -/
def urlColGs (headers : List Str) : Nat :=
  (ensureCol (ensureCol headers (get_column_index headers slugCapStr) slugCapStr).2.1
    (get_column_index headers passUrlStr) passUrlStr).1

/-- Header writes issued by the URL-mode column setup. -/
def headerWritesGs (headers : List Str) : List WriteOp :=
  (ensureCol headers (get_column_index headers slugCapStr) slugCapStr).2.2 ++
    (ensureCol (ensureCol headers (get_column_index headers slugCapStr) slugCapStr).2.1
      (get_column_index headers passUrlStr) passUrlStr).2.2

/-- Resolved slug column of the status-mode run on a given header. -/
def slugColIx (headers : List Str) : Nat :=
  (ensureCol headers (findColsIx headers).2.1 slugLowStr).1

/-- Resolved status column of the status-mode run on a given header. -/
def statusColIx (headers : List Str) : Nat :=
  (ensureCol (ensureCol headers (findColsIx headers).2.1 slugLowStr).2.1
    (findColsIx headers).2.2 statusStr).1

/-- Header writes issued by the status-mode column setup. -/
def headerWritesIx (headers : List Str) : List WriteOp :=
  (ensureCol headers (findColsIx headers).2.1 slugLowStr).2.2 ++
    (ensureCol (ensureCol headers (findColsIx headers).2.1 slugLowStr).2.1
      (findColsIx headers).2.2 statusStr).2.2

theorem process_gs_ok_inv {oracle : Oracle} {baseUrlRaw : Str} {dry : Bool}
    {headers : List Str} {dataRows : List (List Str)} {ws : List WriteOp}
    {s : Summary RowResultGs}
    (h : process_students_gs oracle baseUrlRaw dry (headers :: dataRows) = Except.ok (ws, s)) :
    ∃ name_col st,
      get_column_index headers nameStr = some name_col ∧
      runLoop (fun r => r.status)
        (processRowGs oracle dry (stripEnd (fun c => decide (c = '/')) baseUrlRaw)
          (slugColGs headers) (urlColGs headers))
        name_col 2 dataRows ⟨headerWritesGs headers, 0, 0, 0, []⟩ = Except.ok st ∧
      ws = st.writes ∧
      s = { processed := st.processed, updated := st.updated, errors := st.errors,
            results := some st.results } := by
  simp only [process_students_gs] at h
  split at h
  · simp at h
  · rename_i name_col heq
    split at h
    · simp at h
    · rename_i st hrun
      simp only [Except.ok.injEq, Prod.mk.injEq] at h
      exact ⟨name_col, st, heq, hrun, h.1.symm, h.2.symm⟩

theorem process_ix_ok_inv {oracle : Oracle} {dry : Bool}
    {headers : List Str} {dataRows : List (List Str)} {ws : List WriteOp}
    {s : Summary RowResultIx}
    (h : process_students_ix oracle dry (headers :: dataRows) = Except.ok (ws, s)) :
    ∃ name_col st,
      (findColsIx headers).1 = some name_col ∧
      runLoop (fun r => r.status)
        (processRowIx oracle dry (slugColIx headers) (statusColIx headers))
        name_col 2 dataRows ⟨headerWritesIx headers, 0, 0, 0, []⟩ = Except.ok st ∧
      ws = st.writes ∧
      s = { processed := st.processed, updated := st.updated, errors := st.errors,
            results := some st.results } := by
  simp only [process_students_ix] at h
  split at h
  · simp at h
  · rename_i name_col slug0 status0 heq
    have h21 : (findColsIx headers).2.1 = slug0 := by rw [heq]
    have h22 : (findColsIx headers).2.2 = status0 := by rw [heq]
    have h1 : (findColsIx headers).1 = some name_col := by rw [heq]
    split at h
    · simp at h
    · rename_i st hrun
      simp only [Except.ok.injEq, Prod.mk.injEq] at h
      refine ⟨name_col, st, h1, ?_, h.1.symm, h.2.symm⟩
      rw [slugColIx, statusColIx, headerWritesIx, h21, h22]
      exact hrun

theorem runLoop_skip_nil {ρ : Type} (stat : ρ → RowStatus)
    (body : Nat → List Str → Str → List WriteOp × ρ) (nameCol i : Nat)
    (rest : List (List Str)) (st : LoopState ρ) :
    runLoop stat body nameCol i ([] :: rest) st =
      runLoop stat body nameCol (i + 1) rest st := by
  simp only [runLoop]
  rw [if_pos trivial]

theorem runLoop_skip_blank {ρ : Type} (stat : ρ → RowStatus)
    (body : Nat → List Str → Str → List WriteOp × ρ) (nameCol i : Nat)
    (row : List Str) (rest : List (List Str)) (st : LoopState ρ)
    (h0 : row ≠ []) (hlen : nameCol ≤ row.length)
    (hblank : pyStrip (row.getD (nameCol - 1) []) = []) :
    runLoop stat body nameCol i (row :: rest) st =
      runLoop stat body nameCol (i + 1) rest st := by
  simp only [runLoop]
  rw [if_neg h0, if_neg (by omega)]
  by_cases hcell : row.getD (nameCol - 1) [] = []
  · rw [if_pos hcell]
  · rw [if_neg hcell, if_pos hblank]

theorem runLoop_short_row {ρ : Type} (stat : ρ → RowStatus)
    (body : Nat → List Str → Str → List WriteOp × ρ) (nameCol i : Nat)
    (row : List Str) (rest : List (List Str)) (st : LoopState ρ)
    (h0 : row ≠ []) (hlen : row.length < nameCol) :
    runLoop stat body nameCol i (row :: rest) st = Except.error RunError.indexError := by
  simp only [runLoop]
  rw [if_neg h0, if_pos hlen]

theorem stepState_writes {ρ : Type} (stat : ρ → RowStatus) (st : LoopState ρ)
    (ws : List WriteOp) (res : ρ) :
    (stepState stat st ws res).writes = st.writes ++ ws := by
  rw [stepState]
  by_cases he : stat res = RowStatus.error
  · rw [if_pos he]
  · rw [if_neg he]

theorem runLoop_writes_pres {ρ : Type} {stat : ρ → RowStatus}
    {body : Nat → List Str → Str → List WriteOp × ρ} {nameCol : Nat}
    (P : WriteOp → Prop)
    (hbody : ∀ i row name, ∀ w ∈ (body i row name).1, P w) :
    ∀ (rows : List (List Str)) (rowIdx : Nat) (st st' : LoopState ρ),
      runLoop stat body nameCol rowIdx rows st = Except.ok st' →
      (∀ w ∈ st.writes, P w) → ∀ w ∈ st'.writes, P w := by
  intro rows
  induction rows with
  | nil =>
    intro rowIdx st st' h hst
    simp only [runLoop, Except.ok.injEq] at h
    exact h ▸ hst
  | cons row rest ih =>
    intro rowIdx st st' h hst
    simp only [runLoop] at h
    split at h
    · exact ih _ _ _ h hst
    · split at h
      · simp at h
      · split at h
        · exact ih _ _ _ h hst
        · split at h
          · exact ih _ _ _ h hst
          · refine ih _ _ _ h ?_
            rw [stepState_writes]
            intro w hw
            rcases List.mem_append.mp hw with hw | hw
            · exact hst w hw
            · exact hbody _ _ _ w hw

theorem processRowIx_writes {oracle : Oracle} {dry : Bool} {sc tc i : Nat}
    {row : List Str} {name : Str} :
    ∀ w ∈ (processRowIx oracle dry sc tc i row name).1,
      (∃ v, w = WriteOp.cellWrite i sc v) ∨ w = WriteOp.cellWrite i tc completedStr := by
  intro w hw
  cases hw1 : writeStep oracle dry i sc (currentCell row sc) (generate_slug_index name) with
  | error e =>
    rw [processRowIx_error_eq1 hw1] at hw
    simp at hw
  | ok p1 =>
    obtain ⟨w1, n1⟩ := p1
    cases hw2 : statusStep oracle dry i tc (generate_slug_index name) (currentCell row tc) with
    | error e =>
      rw [processRowIx_error_eq2 hw1 hw2] at hw
      simp only at hw
      exact Or.inl ⟨_, (writeStep_ok_writes hw1).1 w hw⟩
    | ok p2 =>
      obtain ⟨w2, n2⟩ := p2
      rw [processRowIx_eq hw1 hw2] at hw
      simp only at hw
      rcases List.mem_append.mp hw with hw | hw
      · exact Or.inl ⟨_, (writeStep_ok_writes hw1).1 w hw⟩
      · exact Or.inr ((statusStep_ok_writes hw2).1 w hw)

theorem slugColIx_ne_statusColIx (headers : List Str) :
    slugColIx headers ≠ statusColIx headers := by
  rw [slugColIx, statusColIx, findColsIx_eq]
  cases hs0 : lastIdx (matchIx slugLowStr) headers with
  | some k1 =>
    cases ht0 : lastIdx (matchIx statusStr) headers with
    | some k2 =>
      simp only [Option.map_some', ensureCol]
      intro hc
      have hk : k1 = k2 := by omega
      have m1 := lastIdx_matches hs0
      have m2 := lastIdx_matches ht0
      rw [hk] at m1
      rw [matchIx, decide_eq_true_eq] at m1 m2
      rw [m1] at m2
      exact absurd m2 (by decide)
    | none =>
      have hk := lastIdx_lt_length hs0
      simp only [Option.map_some', Option.map_none', ensureCol]
      intro hc
      rw [List.length_append] at hc
      simp only [List.length_singleton] at hc
      omega
  | none =>
    cases ht0 : lastIdx (matchIx statusStr) headers with
    | some k2 =>
      have hk := lastIdx_lt_length ht0
      simp only [Option.map_some', Option.map_none', ensureCol]
      intro hc
      rw [List.length_append] at hc
      simp only [List.length_singleton] at hc
      omega
    | none =>
      simp only [Option.map_none', ensureCol]
      intro hc
      rw [List.length_append, List.length_append, List.length_append] at hc
      simp only [List.length_singleton] at hc
      omega

def exBase : Str := ("https://example.com").data

def exName : Str := ("Rahul Sharma").data

def exSlug : Str := ("rahul-sharma").data

def exUrl : Str := ("https://example.com/pass/rahul-sharma").data

def exRow : List Str := [exName, exSlug, exUrl]

def exGrid : List (List Str) := [[nameStr, slugCapStr, passUrlStr], exRow]

def exSummary : Summary RowResultGs :=
  { processed := 1
    updated := 0
    errors := 0
    results := some [{ name := exName
                       slug := some exSlug
                       url := some exUrl
                       status := RowStatus.unchanged
                       error := none }] }

def errMsg : Str := ("API error").data

/-- An oracle that fails exactly on one cell, with message errMsg. -/
def failOn (r c : Nat) : Oracle := fun ri ci _ =>
  if ri = r ∧ ci = c then Except.error errMsg else Except.ok ()

def exGridFail : List (List Str) :=
  [[nameStr, slugCapStr, passUrlStr],
    [("Old Guy").data, ("wrong").data, ("x").data],
    exRow]

def exFailResults : List RowResultGs :=
  [{ name := ("Old Guy").data
     slug := none
     url := none
     status := RowStatus.error
     error := some errMsg },
   { name := exName
     slug := some exSlug
     url := some exUrl
     status := RowStatus.unchanged
     error := none }]

def exFailSummary : Summary RowResultGs :=
  { processed := 1, updated := 0, errors := 1, results := some exFailResults }

theorem writeStep_error_intro {oracle : Oracle} {i c : Nat} {cur des : Str} {e : Str}
    (hne : ¬(cur = des)) (ho : oracle i c des = Except.error e) :
    writeStep oracle false i c cur des = Except.error e := by
  rw [writeStep, if_pos (by simp [hne])]
  simp only [Bool.false_eq_true, if_false]
  rw [ho]

theorem statusStep_error_intro {oracle : Oracle} {i c : Nat} {slug cur : Str} {e : Str}
    (hs : ¬(slug = [])) (hc : ¬(cur.map Char.toLower = completedStr))
    (ho : oracle i c completedStr = Except.error e) :
    statusStep oracle false i c slug cur = Except.error e := by
  rw [statusStep, if_pos (Or.inr hc)]
  simp only [hs, ne_eq, not_false_eq_true, ite_true]
  rw [if_pos ⟨by simp [completedStr], hc⟩]
  simp only [Bool.false_eq_true, if_false]
  rw [ho]

def exGridFailIx : List (List Str) :=
  [[nameStr, slugLowStr, statusStr],
    [("Bob X").data, ("wrong").data, completedStr],
    [("Ann").data, ("ann").data, completedStr]]

def exFailResultsIx : List RowResultIx :=
  [{ name := ("Bob X").data
     slug := none
     status := RowStatus.error
     error := some errMsg },
   { name := ("Ann").data
     slug := some (("ann").data)
     status := RowStatus.unchanged
     error := none }]

def exFailSummaryIx : Summary RowResultIx :=
  { processed := 1, updated := 0, errors := 1, results := some exFailResultsIx }

theorem ensureCol_writes (hs : List Str) (f : Option Nat) (cn : Str) :
    ∀ w ∈ (ensureCol hs f cn).2.2, ∃ h2, w = WriteOp.headerWrite h2 := by
  intro w hw
  cases f with
  | some c => simp [ensureCol] at hw
  | none =>
    simp only [ensureCol, List.mem_singleton] at hw
    exact ⟨_, hw⟩

/-- Claim C9, counterexample: on an empty fetched grid both process_students
variants return a summary record with only the three counters and no
results sequence (the claim says results is always included). -/
theorem claim_C9_counterexample :
    process_students_gs okOracle exBase false [] =
      Except.ok ([], { processed := 0, updated := 0, errors := 0, results := none }) ∧
    process_students_ix okOracle false [] =
      Except.ok ([], { processed := 0, updated := 0, errors := 0, results := none }) :=
  ⟨rfl, rfl⟩

/-- Claim C9, amended: every non-aborted run returns a summary with
processed, updated and errors counts; when the grid is non-empty the
summary also carries the ordered results sequence, but the empty-grid
short-circuit returns only the three counters without results. -/
theorem claim_C9_summary_shape (oracle : Oracle) (baseUrl : Str) (dry : Bool)
    (grid : List (List Str)) :
    (∀ ws s, process_students_gs oracle baseUrl dry grid = Except.ok (ws, s) →
      (grid = [] → s = { processed := 0, updated := 0, errors := 0, results := none }) ∧
      (grid ≠ [] → ∃ l, s.results = some l)) ∧
    (∀ ws s, process_students_ix oracle dry grid = Except.ok (ws, s) →
      (grid = [] → s = { processed := 0, updated := 0, errors := 0, results := none }) ∧
      (grid ≠ [] → ∃ l, s.results = some l)) := by
  constructor
  · intro ws s h
    cases grid with
    | nil =>
      simp only [process_students_gs, Except.ok.injEq, Prod.mk.injEq] at h
      exact ⟨fun _ => h.2.symm, fun hne => absurd rfl hne⟩
    | cons headers rows =>
      obtain ⟨nc, st, _, _, _, hs⟩ := process_gs_ok_inv h
      refine ⟨fun hh => by simp at hh, fun _ => ⟨st.results, ?_⟩⟩
      rw [hs]
  · intro ws s h
    cases grid with
    | nil =>
      simp only [process_students_ix, Except.ok.injEq, Prod.mk.injEq] at h
      exact ⟨fun _ => h.2.symm, fun hne => absurd rfl hne⟩
    | cons headers rows =>
      obtain ⟨nc, st, _, _, _, hs⟩ := process_ix_ok_inv h
      refine ⟨fun hh => by simp at hh, fun _ => ⟨st.results, ?_⟩⟩
      rw [hs]

theorem claim_C9_witness : ∃ l, exSummary.results = some l :=
  ((claim_C9_summary_shape okOracle exBase false exGrid).1 [] exSummary rfl).2 (by decide)

/-- Claim C10: in every non-aborted run of either variant, the results
sequence has exactly one entry per counted row (its length is processed
plus errors), updated never exceeds processed, and in dry-run mode
updated is zero. -/
theorem claim_C10_counts (oracle : Oracle) (baseUrl : Str) (dry : Bool)
    (grid : List (List Str)) :
    (∀ ws s, process_students_gs oracle baseUrl dry grid = Except.ok (ws, s) →
      (s.results.getD []).length = s.processed + s.errors ∧
      s.updated ≤ s.processed ∧ (dry = true → s.updated = 0)) ∧
    (∀ ws s, process_students_ix oracle dry grid = Except.ok (ws, s) →
      (s.results.getD []).length = s.processed + s.errors ∧
      s.updated ≤ s.processed ∧ (dry = true → s.updated = 0)) := by
  constructor
  · intro ws s h
    cases grid with
    | nil =>
      simp only [process_students_gs, Except.ok.injEq, Prod.mk.injEq] at h
      rw [← h.2]
      exact ⟨rfl, Nat.le_refl 0, fun _ => rfl⟩
    | cons headers rows =>
      obtain ⟨nc, st, hname, hrun, hws, hs⟩ := process_gs_ok_inv h
      obtain ⟨c1, c2, c3⟩ := runLoop_countersOk _ _ _ _ hrun ⟨rfl, Nat.le_refl 0, rfl⟩
      subst hs
      refine ⟨by simpa using c1, c2, ?_⟩
      intro hdry
      subst hdry
      have hupd := runLoop_updated_const ?_ _ _ _ _ hrun
      · simpa using hupd
      · intro i row name
        rw [processRowGs_dry]
        simp
  · intro ws s h
    cases grid with
    | nil =>
      simp only [process_students_ix, Except.ok.injEq, Prod.mk.injEq] at h
      rw [← h.2]
      exact ⟨rfl, Nat.le_refl 0, fun _ => rfl⟩
    | cons headers rows =>
      obtain ⟨nc, st, hname, hrun, hws, hs⟩ := process_ix_ok_inv h
      obtain ⟨c1, c2, c3⟩ := runLoop_countersOk _ _ _ _ hrun ⟨rfl, Nat.le_refl 0, rfl⟩
      subst hs
      refine ⟨by simpa using c1, c2, ?_⟩
      intro hdry
      subst hdry
      have hupd := runLoop_updated_const ?_ _ _ _ _ hrun
      · simpa using hupd
      · intro i row name
        rw [processRowIx_dry]
        simp

theorem claim_C10_witness :
    (exSummary.results.getD []).length = exSummary.processed + exSummary.errors ∧
      exSummary.updated ≤ exSummary.processed ∧
      (false = true → exSummary.updated = 0) :=
  (claim_C10_counts okOracle exBase false exGrid).1 [] exSummary rfl

/-- Claim C5, counterexample: a non-empty data row shorter than the Name
column position is not skipped; the row access raises an uncaught
IndexError that aborts the whole run (the claim says such a row is
skipped and never aborts the run). -/
theorem claim_C5_counterexample :
    process_students_ix okOracle false [[("x").data, nameStr], [("a").data]] =
      Except.error RunError.indexError :=
  rfl

/-- Claim C5, amended: the row loop skips empty rows and rows whose Name
cell is present but blank after trimming, with no outcome and no writes;
but a non-empty row shorter than the Name column position raises an
uncaught IndexError aborting the run. -/
theorem claim_C5_skip_behavior {ρ : Type} (stat : ρ → RowStatus)
    (body : Nat → List Str → Str → List WriteOp × ρ) (nameCol i : Nat)
    (row : List Str) (rest : List (List Str)) (st : LoopState ρ) :
    (row = [] → runLoop stat body nameCol i (row :: rest) st =
      runLoop stat body nameCol (i + 1) rest st) ∧
    (row ≠ [] → nameCol ≤ row.length → pyStrip (row.getD (nameCol - 1) []) = [] →
      runLoop stat body nameCol i (row :: rest) st =
        runLoop stat body nameCol (i + 1) rest st) ∧
    (row ≠ [] → row.length < nameCol →
      runLoop stat body nameCol i (row :: rest) st = Except.error RunError.indexError) :=
  ⟨fun h0 => h0 ▸ runLoop_skip_nil stat body nameCol i rest st,
    fun h0 hlen hb => runLoop_skip_blank stat body nameCol i row rest st h0 hlen hb,
    fun h0 hlen => runLoop_short_row stat body nameCol i row rest st h0 hlen⟩

theorem claim_C5_witness :
    runLoop (fun r : RowResultIx => r.status) (processRowIx okOracle false 2 3) 1 2
        [[(" ").data]] ⟨[], 0, 0, 0, []⟩ =
      runLoop (fun r : RowResultIx => r.status) (processRowIx okOracle false 2 3) 1 3
        [] ⟨[], 0, 0, 0, []⟩ :=
  (claim_C5_skip_behavior (fun r : RowResultIx => r.status) (processRowIx okOracle false 2 3)
    1 2 [(" ").data] [] ⟨[], 0, 0, 0, []⟩).2.1 (by decide) (by decide) (by decide)

/-- Claim C7, counterexample: the lookup of generate_slugs.py is exact and
case-sensitive, so the header cell "name" does not resolve the logical
column "Name"; and the scan of index.py lets a later matching cell
overwrite an earlier one, so with two matching cells the last position
wins, not the first. -/
theorem claim_C7_counterexample :
    get_column_index [("name").data] nameStr = none ∧
    (findColsIx [nameStr, ("NAME").data]).1 = some 2 :=
  ⟨rfl, rfl⟩

/-- Claim C7, amended: generate_slugs.py resolves a column to the first
header cell exactly equal to the logical name (case-sensitive, no
trimming); index.py resolves name, slug and status to the last header
cell whose trimmed lowercased text equals the logical name. -/
theorem claim_C7_resolution :
    (∀ (hs : List Str) (col : Str),
      get_column_index hs col = (firstIdx (fun h => decide (h = col)) hs).map (· + 1)) ∧
    (∀ hs : List Str, findColsIx hs =
      ((lastIdx (matchIx nameLowStr) hs).map (· + 1),
        (lastIdx (matchIx slugLowStr) hs).map (· + 1),
        (lastIdx (matchIx statusStr) hs).map (· + 1))) :=
  ⟨get_column_index_eq, findColsIx_eq⟩

/-- Claim C3, counterexample: in dry-run mode a row whose current cells
already equal the desired values (no pending writes) is recorded as
would_update, not unchanged, although zero writes are issued. -/
theorem claim_C3_counterexample :
    process_students_gs okOracle exBase true exGrid =
      Except.ok ([],
        { processed := 1
          updated := 0
          errors := 0
          results := some [{ name := exName
                             slug := some exSlug
                             url := some exUrl
                             status := RowStatus.would_update
                             error := none }] }) ∧
    gsPending exBase 2 3 exRow exName = false :=
  ⟨rfl, rfl⟩

/-- Claim C3, amended: a processed row is recorded updated iff a pending
write was identified and the run is live; in dry-run mode every processed
row is recorded would_update, whether or not a pending write was
identified; unchanged iff no pending write in live mode; a row with no
pending writes causes zero cell writes, and in live mode the fully
up-to-date example row is recorded unchanged with zero writes. -/
theorem claim_C3_row_statuses :
    (∀ (oracle : Oracle) (dry : Bool) (baseUrl : Str) (sc uc i : Nat)
      (row : List Str) (name : Str),
      (processRowGs oracle dry baseUrl sc uc i row name).2.status ≠ RowStatus.error →
      ((processRowGs oracle dry baseUrl sc uc i row name).2.status = RowStatus.updated ↔
        gsPending baseUrl sc uc row name = true ∧ dry = false) ∧
      ((processRowGs oracle dry baseUrl sc uc i row name).2.status = RowStatus.would_update ↔
        dry = true) ∧
      ((processRowGs oracle dry baseUrl sc uc i row name).2.status = RowStatus.unchanged ↔
        gsPending baseUrl sc uc row name = false ∧ dry = false) ∧
      (gsPending baseUrl sc uc row name = false →
        (processRowGs oracle dry baseUrl sc uc i row name).1 = [])) ∧
    (∀ (oracle : Oracle) (dry : Bool) (sc tc i : Nat) (row : List Str) (name : Str),
      (processRowIx oracle dry sc tc i row name).2.status ≠ RowStatus.error →
      ((processRowIx oracle dry sc tc i row name).2.status = RowStatus.updated ↔
        ixPending sc tc row name = true ∧ dry = false) ∧
      ((processRowIx oracle dry sc tc i row name).2.status = RowStatus.would_update ↔
        dry = true) ∧
      ((processRowIx oracle dry sc tc i row name).2.status = RowStatus.unchanged ↔
        ixPending sc tc row name = false ∧ dry = false) ∧
      (ixPending sc tc row name = false →
        (processRowIx oracle dry sc tc i row name).1 = [])) ∧
    process_students_gs okOracle exBase false exGrid = Except.ok ([], exSummary) :=
  ⟨fun _ _ _ _ _ _ _ _ hne => processRowGs_status_char hne,
    fun _ _ _ _ _ _ _ hne => processRowIx_status_char hne,
    rfl⟩

theorem claim_C3_witness :
    (processRowGs okOracle false exBase 2 3 2 exRow exName).2.status = RowStatus.unchanged ↔
      gsPending exBase 2 3 exRow exName = false ∧ false = false :=
  (claim_C3_row_statuses.1 okOracle false exBase 2 3 2 exRow exName (by decide)).2.2.1

/-- Claim C4: in both variants the error counter of a non-aborted run
equals exactly the number of error-marked row outcomes; in both variants
the results sequence covers every non-skipped row, so rows after a
failing one are still processed; in both variants a failing write
degrades only its row to an error outcome carrying the message (shown
for the slug write of URL mode and for both the slug write and the
status write of status mode); demonstrated on one run of each variant
whose second row fails while the third is still reconciled. -/
theorem claim_C4_row_failures (oracle : Oracle) (baseUrl : Str) (dry : Bool)
    (grid : List (List Str)) :
    (∀ ws s l, process_students_gs oracle baseUrl dry grid = Except.ok (ws, s) →
      s.results = some l →
      s.errors = l.countP (fun r => decide (r.status = RowStatus.error))) ∧
    (∀ ws s l, process_students_ix oracle dry grid = Except.ok (ws, s) →
      s.results = some l →
      s.errors = l.countP (fun r => decide (r.status = RowStatus.error))) ∧
    (∀ headers dataRows ws s l nc, grid = headers :: dataRows →
      process_students_gs oracle baseUrl dry grid = Except.ok (ws, s) →
      s.results = some l → get_column_index headers nameStr = some nc →
      l.length = countRelevant nc dataRows) ∧
    (∀ headers dataRows ws s l nc, grid = headers :: dataRows →
      process_students_ix oracle dry grid = Except.ok (ws, s) →
      s.results = some l → (findColsIx headers).1 = some nc →
      l.length = countRelevant nc dataRows) ∧
    (∀ (oracle2 : Oracle) (baseUrl2 : Str) (sc uc i : Nat) (row : List Str)
      (name : Str) (e : Str),
      ¬(currentCell row sc = generate_slug_gs name) →
      oracle2 i sc (generate_slug_gs name) = Except.error e →
      processRowGs oracle2 false baseUrl2 sc uc i row name =
        ([], { name := name, slug := none, url := none, status := RowStatus.error,
               error := some e })) ∧
    (∀ (oracle2 : Oracle) (sc tc i : Nat) (row : List Str) (name : Str) (e : Str),
      ¬(currentCell row sc = generate_slug_index name) →
      oracle2 i sc (generate_slug_index name) = Except.error e →
      processRowIx oracle2 false sc tc i row name =
        ([], { name := name, slug := none, status := RowStatus.error,
               error := some e })) ∧
    (∀ (oracle2 : Oracle) (sc tc i : Nat) (row : List Str) (name : Str) (e : Str)
      (w1 : List WriteOp) (n1 : Bool),
      writeStep oracle2 false i sc (currentCell row sc) (generate_slug_index name) =
        Except.ok (w1, n1) →
      ¬(generate_slug_index name = []) →
      ¬((currentCell row tc).map Char.toLower = completedStr) →
      oracle2 i tc completedStr = Except.error e →
      processRowIx oracle2 false sc tc i row name =
        (w1, { name := name, slug := none, status := RowStatus.error,
               error := some e })) ∧
    process_students_gs (failOn 2 2) exBase false exGridFail =
      Except.ok ([], exFailSummary) ∧
    process_students_ix (failOn 2 2) false exGridFailIx =
      Except.ok ([], exFailSummaryIx) := by
  refine ⟨?_, ?_, ?_, ?_, ?_, ?_, ?_, rfl, rfl⟩
  · intro ws s l h hres
    cases grid with
    | nil =>
      simp only [process_students_gs, Except.ok.injEq, Prod.mk.injEq] at h
      rw [← h.2] at hres
      simp at hres
    | cons headers rows =>
      obtain ⟨nc, st, hname, hrun, hws, hs⟩ := process_gs_ok_inv h
      obtain ⟨c1, c2, c3⟩ := runLoop_countersOk _ _ _ _ hrun ⟨rfl, Nat.le_refl 0, rfl⟩
      subst hs
      simp only [Option.some.injEq] at hres
      rw [hres] at c3
      simpa using c3
  · intro ws s l h hres
    cases grid with
    | nil =>
      simp only [process_students_ix, Except.ok.injEq, Prod.mk.injEq] at h
      rw [← h.2] at hres
      simp at hres
    | cons headers rows =>
      obtain ⟨nc, st, hname, hrun, hws, hs⟩ := process_ix_ok_inv h
      obtain ⟨c1, c2, c3⟩ := runLoop_countersOk _ _ _ _ hrun ⟨rfl, Nat.le_refl 0, rfl⟩
      subst hs
      simp only [Option.some.injEq] at hres
      rw [hres] at c3
      simpa using c3
  · intro headers dataRows ws s l nc hgrid h hres hcol
    subst hgrid
    obtain ⟨nc2, st, hname, hrun, hws, hs⟩ := process_gs_ok_inv h
    have hnc : nc2 = nc := by
      rw [hcol] at hname
      exact (Option.some.injEq _ _ ▸ hname).symm
    subst hnc
    have hlen := runLoop_results_count _ _ _ _ hrun
    subst hs
    simp only [Option.some.injEq] at hres
    rw [← hres]
    simpa using hlen
  · intro headers dataRows ws s l nc hgrid h hres hcol
    subst hgrid
    obtain ⟨nc2, st, hname, hrun, hws, hs⟩ := process_ix_ok_inv h
    have hnc : nc2 = nc := by
      rw [hcol] at hname
      exact (Option.some.injEq _ _ ▸ hname).symm
    subst hnc
    have hlen := runLoop_results_count _ _ _ _ hrun
    subst hs
    simp only [Option.some.injEq] at hres
    rw [← hres]
    simpa using hlen
  · intro oracle2 baseUrl2 sc uc i row name e hne ho
    exact processRowGs_error_eq1 (writeStep_error_intro hne ho)
  · intro oracle2 sc tc i row name e hne ho
    exact processRowIx_error_eq1 (writeStep_error_intro hne ho)
  · intro oracle2 sc tc i row name e w1 n1 hws hs hc ho
    exact processRowIx_error_eq2 hws (statusStep_error_intro hs hc ho)

theorem claim_C4_witness :
    exFailSummary.errors =
      exFailResults.countP (fun r => decide (r.status = RowStatus.error)) :=
  (claim_C4_row_failures (failOn 2 2) exBase false exGridFail).1 [] exFailSummary
    exFailResults rfl rfl

def annGrid : List (List Str) := [[nameStr], [("Ann").data]]

def annWrites : List WriteOp :=
  [WriteOp.headerWrite [nameStr, slugLowStr],
    WriteOp.headerWrite [nameStr, slugLowStr, statusStr],
    WriteOp.cellWrite 2 2 (("ann").data),
    WriteOp.cellWrite 2 3 completedStr]

def annSummary : Summary RowResultIx :=
  { processed := 1
    updated := 1
    errors := 0
    results := some [{ name := ("Ann").data
                       slug := some (("ann").data)
                       status := RowStatus.updated
                       error := none }] }

/-- Claim C8: in status mode, a non-aborted run never writes any value
other than "completed" to the status column; and the status write only
happens when the derived slug is non-empty, the current status is not
already "completed" case-insensitively, and the run is live. -/
theorem claim_C8_status_writes {oracle : Oracle} {dry : Bool} {headers : List Str}
    {dataRows : List (List Str)} {ws : List WriteOp} {s : Summary RowResultIx}
    (h : process_students_ix oracle dry (headers :: dataRows) = Except.ok (ws, s)) :
    (∀ r v, WriteOp.cellWrite r (statusColIx headers) v ∈ ws → v = completedStr) ∧
    (∀ (oracle2 : Oracle) (dry2 : Bool) (i c : Nat) (slug cur : Str)
      (w : List WriteOp) (b : Bool),
      statusStep oracle2 dry2 i c slug cur = Except.ok (w, b) → w ≠ [] →
      slug ≠ [] ∧ cur.map Char.toLower ≠ completedStr ∧ dry2 = false) := by
  constructor
  · obtain ⟨nc, st, hname, hrun, hws, _⟩ := process_ix_ok_inv h
    subst hws
    intro r v hv
    have hpres := runLoop_writes_pres
      (fun w => ∀ r2 v2, w = WriteOp.cellWrite r2 (statusColIx headers) v2 →
        v2 = completedStr)
      ?_ _ _ _ _ hrun ?_ _ hv
    · exact hpres r v rfl
    · intro i row name w hw
      rcases processRowIx_writes w hw with ⟨v3, hv3⟩ | hv3
      · intro r2 v2 heq
        rw [hv3] at heq
        simp only [WriteOp.cellWrite.injEq] at heq
        exact absurd heq.2.1 (slugColIx_ne_statusColIx headers)
      · intro r2 v2 heq
        rw [hv3] at heq
        simp only [WriteOp.cellWrite.injEq] at heq
        exact heq.2.2.symm
    · intro w hw r2 v2 heq
      have hw2 : w ∈ (ensureCol headers (findColsIx headers).2.1 slugLowStr).2.2 ++
          (ensureCol (ensureCol headers (findColsIx headers).2.1 slugLowStr).2.1
            (findColsIx headers).2.2 statusStr).2.2 := hw
      rcases List.mem_append.mp hw2 with hw1 | hw1
      · obtain ⟨h2, hh2⟩ := ensureCol_writes _ _ _ w hw1
        rw [hh2] at heq
        simp at heq
      · obtain ⟨h2, hh2⟩ := ensureCol_writes _ _ _ w hw1
        rw [hh2] at heq
        simp at heq
  · intro oracle2 dry2 i c slug cur w b hstep hne
    exact (statusStep_ok_writes hstep).2.2 hne

theorem claim_C8_witness :
    completedStr = completedStr ∧
    (("ann").data ≠ [] ∧ (("x").data).map Char.toLower ≠ completedStr ∧ false = false) :=
  ⟨(claim_C8_status_writes
      (show process_students_ix okOracle false annGrid = Except.ok (annWrites, annSummary)
        from rfl)).1 2 completedStr (by decide),
   (claim_C8_status_writes
      (show process_students_ix okOracle false annGrid = Except.ok (annWrites, annSummary)
        from rfl)).2 okOracle false 2 3 (("ann").data) (("x").data)
      [WriteOp.cellWrite 2 3 completedStr] true (by rfl) (by decide)⟩
